import Mathlib

/-!
# LAN-Messenger-P2P: verified model of the networking core

A shallow embedding of the discovery service, broadcast chat transport
(with flood control), relay transport/server and the wire codec of the
LAN-Messenger-P2P repository (`p2p_server.py`, `relay_server.py`,
`client.py`, `client-pyside.py`), together with theorems settling the
specification claims about them.

Python dictionaries are modelled as association lists with insert-or-update
semantics; Python `time.time()` values are rationals; byte strings are
lists of naturals below 256.
-/

/-! ## Association-list dictionaries (Python `dict` semantics) -/

/-- `dget k l`: Python `l.get(k)`. -/
def dget {α : Type} (k : String) : List (String × α) → Option α
  | [] => none
  | (k', v) :: t => if k' = k then some v else dget k t

/-- `dinsert k v l`: Python `l[k] = v` (update in place, else append). -/
def dinsert {α : Type} (k : String) (v : α) : List (String × α) → List (String × α)
  | [] => [(k, v)]
  | (k', v') :: t => if k' = k then (k, v) :: t else (k', v') :: dinsert k v t

/-- `derase k l`: Python `l.pop(k, None)` (first binding removed). -/
def derase {α : Type} (k : String) : List (String × α) → List (String × α)
  | [] => []
  | (k', v') :: t => if k' = k then t else (k', v') :: derase k t

/-- Keys of an association list are pairwise distinct (Python dicts
guarantee this). -/
def DKeysNodup {α : Type} (l : List (String × α)) : Prop :=
  (l.map Prod.fst).Nodup

/-! ## Decimal rendering of integers (Python `str(int)` / f-string) -/

/-- Digit characters of `n`, accumulator style; `fuel` bounds the loop. -/
def natChars : Nat → Nat → List Char → List Char
  | 0, _, acc => acc
  | fuel + 1, n, acc =>
    let acc' := Char.ofNat (48 + n % 10) :: acc
    if n < 10 then acc' else natChars fuel (n / 10) acc'

/-- Decimal representation of a natural number. -/
def natStr (n : Nat) : String := ⟨natChars (n + 1) n []⟩

/-- Decimal representation of an integer, as Python `str()` renders it. -/
def intStr (i : Int) : String :=
  if i < 0 then "-" ++ natStr i.natAbs else natStr i.natAbs

/-! ## Room entries (`RoomEntry` dataclass) -/

/-- `RoomEntry` from `p2p_server.py` / `client.py` (field `private` is
spelled `priv`, field `local` is spelled `isLocal`: both are Lean
keywords). -/
structure RoomEntry where
  name : String
  port : Int
  priv : Bool
  creator : String
  code : String := ""
  isLocal : Bool := false
deriving DecidableEq, Repr

/-- A decoded `room_announce` / `room_remove` payload, after the JSON
layer: `port` is `none` when the field is absent or `int()` on it fails,
string fields are `none` when absent (the handlers apply the `get`
defaults). -/
structure RoomMsg where
  name : Option String
  port : Option Int
  priv : Bool
  creator : Option String
deriving DecidableEq, Repr

/-! ## Discovery service, `p2p_server.py` variant (namespace `PS`)

`DiscoveryService` in `p2p_server.py`: room key `f"{name}|{port}"`,
announce handler discards claims over rooms whose stored creator is the
local peer id, remove handler ignores removes for locally owned rooms. -/

namespace PS

/-- Discovery-service state: `peer_id`, `rooms`, `local_rooms`. -/
structure DState where
  peerId : String
  rooms : List (String × RoomEntry)
  localRooms : List (String × RoomEntry)
deriving DecidableEq, Repr

/-- `_room_key` of `p2p_server.py`: `f"{room.name}|{room.port}"`. -/
def roomKey (r : RoomEntry) : String := r.name ++ "|" ++ intStr r.port

/-- `_handle_announce` of `p2p_server.py` (lines 171-188).  Returns the
new state and whether `_notify` ran. -/
def handleAnnounce (s : DState) (p : RoomMsg) : DState × Bool :=
  match p.port with
  | none => (s, false)
  | some port =>
    let name := p.name.getD ""
    let creator := p.creator.getD ""
    if name = "" ∨ creator = "" then (s, false)
    else
      let room : RoomEntry :=
        { name := name, port := port, priv := p.priv, creator := creator, code := "" }
      let key := roomKey room
      match dget key s.rooms with
      | some existing =>
        if existing.creator = s.peerId then (s, false)
        else ({ s with rooms := dinsert key room s.rooms }, true)
      | none => ({ s with rooms := dinsert key room s.rooms }, true)

/-- `_handle_remove` of `p2p_server.py` (lines 190-207): removes for
locally owned rooms are ignored; otherwise the key is popped from both
tables and `_notify` runs iff an entry was present in `rooms`. -/
def handleRemove (s : DState) (p : RoomMsg) : DState × Bool :=
  match p.port with
  | none => (s, false)
  | some port =>
    let name := p.name.getD ""
    let creator := p.creator.getD ""
    let room : RoomEntry :=
      { name := name, port := port, priv := p.priv, creator := creator }
    let key := roomKey room
    match dget key s.localRooms with
    | some lr =>
      if lr.creator = s.peerId then (s, false)
      else
        (({ s with rooms := derase key s.rooms,
                   localRooms := derase key s.localRooms }),
         (dget key s.rooms).isSome)
    | none =>
      (({ s with rooms := derase key s.rooms,
                 localRooms := derase key s.localRooms }),
       (dget key s.rooms).isSome)

/-- `add_local_room` (lines 79-86): marks the entry local and stores it
in both tables (the announce broadcast and notify always happen). -/
def addLocalRoom (s : DState) (r : RoomEntry) : DState :=
  let room := { r with isLocal := true }
  let key := roomKey room
  { s with rooms := dinsert key room s.rooms,
           localRooms := dinsert key room s.localRooms }

/-- `remove_room` (lines 88-103): pops the key from both tables; the
`room_remove` broadcast and notify happen iff an entry was removed. -/
def removeRoom (s : DState) (r : RoomEntry) : DState × Bool :=
  let key := roomKey r
  (({ s with rooms := derase key s.rooms,
             localRooms := derase key s.localRooms }),
   (dget key s.rooms).isSome)

end PS

/-! ## Discovery service, `client.py` variant (namespace `CL`)

The earlier `DiscoveryService` in `client.py`: room key
`f"{name}|{port}|{creator}"`, no self-authority check in the announce
handler and no local-ownership check in the remove handler. -/

namespace CL

/-- `_room_key` of `client.py` (lines 184-185): creator participates in
the key. -/
def roomKey (r : RoomEntry) : String :=
  r.name ++ "|" ++ intStr r.port ++ "|" ++ r.creator

/-- `_handle_announce` of `client.py` (lines 152-166): inserts
unconditionally after validation — no check against locally owned
entries. -/
def handleAnnounce (s : PS.DState) (p : RoomMsg) : PS.DState × Bool :=
  match p.port with
  | none => (s, false)
  | some port =>
    let name := p.name.getD ""
    let creator := p.creator.getD ""
    if name = "" ∨ creator = "" then (s, false)
    else
      let room : RoomEntry :=
        { name := name, port := port, priv := p.priv, creator := creator, code := "" }
      let key := roomKey room
      ({ s with rooms := dinsert key room s.rooms }, true)

/-- `_handle_remove` of `client.py` (lines 168-182): pops the key from
both tables unconditionally — no ownership protection. -/
def handleRemove (s : PS.DState) (p : RoomMsg) : PS.DState × Bool :=
  match p.port with
  | none => (s, false)
  | some port =>
    let name := p.name.getD ""
    let creator := p.creator.getD ""
    let room : RoomEntry :=
      { name := name, port := port, priv := p.priv, creator := creator }
    let key := roomKey room
    (({ s with rooms := derase key s.rooms,
               localRooms := derase key s.localRooms }),
     (dget key s.rooms).isSome)

end CL

/-! ## Flood controller (`BroadcastPeer._is_flooding`, lines 390-404)

Timestamps (`time.time()`) are rationals.  The result is
`(rejected, notice, new state)` where `notice` is the synthetic
"muting ... for 10s" display line handed to `on_message`, when it fires
(the source only calls the callback when `self.on_message` is set, hence
the `onMessageSet` flag). -/

/-- Per-session flood-control tables: `flood_windows` and
`flood_penalties`, keyed by remote peer id. -/
structure FloodSt where
  windows : List (String × List ℚ)
  penalties : List (String × ℚ)
deriving DecidableEq, Repr

/-- `_is_flooding(peer_id, name)` at time `now`. -/
def isFlooding (st : FloodSt) (pid name : String) (now : ℚ)
    (onMessageSet : Bool) : Bool × Option String × FloodSt :=
  let penaltyEnd := (dget pid st.penalties).getD 0
  if now < penaltyEnd then (true, none, st)
  else
    let window := (dget pid st.windows).getD []
    let window := window.dropWhile (fun t => decide (3 < now - t))
    let window := window ++ [now]
    if 5 < window.length then
      (true,
       if onMessageSet then some ("* Flood control: muting " ++ name ++ " for 10s")
       else none,
       { windows := dinsert pid window st.windows,
         penalties := dinsert pid (now + 10) st.penalties })
    else
      (false, none, { st with windows := dinsert pid window st.windows })

/-- Run `_is_flooding` over a sequence of `(peer_id, name, time)` calls,
collecting each call's `(rejected, notice)` outcome. -/
def runFlood (onMessageSet : Bool) (st : FloodSt) :
    List (String × String × ℚ) → List (Bool × Option String) × FloodSt
  | [] => ([], st)
  | (pid, name, now) :: rest =>
    let r := isFlooding st pid name now onMessageSet
    let rec' := runFlood onMessageSet r.2.2 rest
    ((r.1, r.2.1) :: rec'.1, rec'.2)

/-! ## Receive-loop dispatch (`BroadcastPeer._recv_loop`, `RelayPeer._recv_loop`)

One decoded envelope is dispatched against the session state.  Optional
fields model `payload.get(...)`; the `getD` defaults below are exactly
the source's `get` defaults. -/

/-- A decoded chat/relay envelope (after the wire codec). -/
structure Payload where
  typ : Option String
  id : Option String
  name : Option String
  text : Option String
  room : Option String
  code : Option String
  active : Option Bool
deriving DecidableEq, Repr

/-- A callback invocation observed by the UI collaborator (the constant
`session_key` argument is omitted). -/
inductive Event
  | msg (display : String)
  | presence (pid name : String)
  | typing (pid name : String) (active : Bool)
deriving DecidableEq, Repr

/-- `BroadcastPeer` receive-side state. -/
structure BPState where
  peerId : String
  room : String
  code : String
  flood : FloodSt
  onMessageSet : Bool
  onPresenceSet : Bool
  onTypingSet : Bool
deriving DecidableEq, Repr

/-- One iteration of `BroadcastPeer._recv_loop` (lines 302-356) on a
successfully decoded payload, at time `now`: the callback events fired
and the updated flood state. -/
def bpRecv (s : BPState) (p : Payload) (now : ℚ) : List Event × BPState :=
  if p.id = some s.peerId then ([], s)
  else
    let name := p.name.getD "Unknown"
    let text := p.text.getD ""
    let room := p.room.getD "public"
    let code := p.code.getD ""
    if room ≠ s.room ∨ code ≠ s.code then ([], s)
    else if p.typ = some "presence" ∧ s.onPresenceSet then
      ([.presence (p.id.getD "") name], s)
    else if p.typ = some "typing" ∧ s.onTypingSet then
      ([.typing (p.id.getD "") name (p.active.getD false)], s)
    else if p.typ = some "chat" then
      let r := isFlooding s.flood (p.id.getD "") name now s.onMessageSet
      if r.1 then ((r.2.1.map Event.msg).toList, { s with flood := r.2.2 })
      else
        ((if s.onMessageSet then [.msg (name ++ ": " ++ text)] else []),
         { s with flood := r.2.2 })
    else if p.typ = some "system" then
      let r := isFlooding s.flood (p.id.getD "") name now s.onMessageSet
      if r.1 then ((r.2.1.map Event.msg).toList, { s with flood := r.2.2 })
      else
        ((if s.onMessageSet then [.msg ("* " ++ name ++ " " ++ text)] else []),
         { s with flood := r.2.2 })
    else ([], s)

/-- `RelayPeer` receive-side state (no flood tables). -/
structure RPState where
  peerId : String
  room : String
  code : String
  onMessageSet : Bool
  onPresenceSet : Bool
  onTypingSet : Bool
deriving DecidableEq, Repr

/-- One iteration of `RelayPeer._recv_loop` (lines 557-617) on a
successfully decoded payload: the callback events fired (the session
state never changes). -/
def rpRecv (s : RPState) (p : Payload) : List Event :=
  if p.id = some s.peerId then []
  else
    let name := p.name.getD "Unknown"
    let text := p.text.getD ""
    let room := p.room.getD "public"
    let code := p.code.getD ""
    if room ≠ s.room ∨ code ≠ s.code then []
    else if p.typ = some "presence" ∧ s.onPresenceSet then
      [.presence (p.id.getD "") name]
    else if p.typ = some "typing" ∧ s.onTypingSet then
      [.typing (p.id.getD "") name (p.active.getD false)]
    else if p.typ = some "chat" then
      if s.onMessageSet then [.msg (name ++ ": " ++ text)] else []
    else if p.typ = some "system" then
      if s.onMessageSet then [.msg ("* " ++ name ++ " " ++ text)] else []
    else []

/-! ## Relay server fan-out (`RelayServer.broadcast`, `RelayServer.handle`) -/

/-- A connected relay client: the socket's identity and whether
`sendall` of the current frame to it succeeds. -/
structure RClient where
  cid : Nat
  sendOk : Bool
deriving DecidableEq, Repr

/-- The `for c in self.clients` send loop of `RelayServer.broadcast`
(lines 44-51): deliveries made and the `dead` list collected, in order. -/
def rsSendPass (sender : Nat) (frame : List Nat) :
    List RClient → List (Nat × List Nat) × List RClient
  | [] => ([], [])
  | c :: rest =>
    let r := rsSendPass sender frame rest
    if c.cid = sender then r
    else if c.sendOk then ((c.cid, frame) :: r.1, r.2)
    else (r.1, c :: r.2)

/-- Python `list.remove(x)`: drop the first occurrence. -/
def removeFirst (x : RClient) : List RClient → List RClient
  | [] => []
  | c :: t => if c = x then t else c :: removeFirst x t

/-- `RelayServer.broadcast(sender, frame)` (lines 42-58): returns
`(deliveries, closed socket ids, new live set)`. -/
def rsBroadcast (clients : List RClient) (sender : Nat) (frame : List Nat) :
    List (Nat × List Nat) × List Nat × List RClient :=
  let p := rsSendPass sender frame clients
  (p.1, p.2.map RClient.cid,
   p.2.foldl (fun cs d => if d ∈ cs then removeFirst d cs else cs) clients)

/-- `RelayServer.handle` forwarding step (line 75): the received 4-byte
header and payload are fanned out verbatim as `header + payload`. -/
def rsHandleFrame (clients : List RClient) (sender : Nat)
    (header payload : List Nat) : List (Nat × List Nat) × List Nat × List RClient :=
  rsBroadcast clients sender (header ++ payload)

/-! ## Transport lifecycle (`start` / `stop`)

Socket-environment outcomes (bind/connect success) are explicit boolean
parameters; `raised` records whether the call raised to its caller;
`bindAttempts` counts socket bind/connect attempts made by the call;
`sent` lists the texts of system envelopes emitted. -/

/-- Mutable lifecycle fields shared by `BroadcastPeer` and `RelayPeer`. -/
structure PeerLife where
  running : Bool
  sockOpen : Bool
  name : String
  port : Int
  room : String
  code : String
deriving DecidableEq, Repr

/-- Result of a `start`/`stop` call. -/
structure LifeRes where
  raised : Bool
  bindAttempts : Nat
  sent : List String
  st : PeerLife
deriving DecidableEq, Repr

/-- `BroadcastPeer.start(name, port, room, code)` (lines 250-281) under
bind outcome `bindOk`. -/
def bpStart (s : PeerLife) (name : String) (port : Int) (room code : String)
    (bindOk : Bool) : LifeRes :=
  if s.running then ⟨false, 0, [], s⟩
  else
    let s1 := { s with name := if name = "" then "Anonymous" else name,
                       port := port }
    if ¬(1 ≤ port ∧ port ≤ 65535) then ⟨true, 0, [], s1⟩
    else
      let s2 := { s1 with room := if room = "" then "public" else room,
                          code := code.trim }
      if bindOk then
        ⟨false, 1, ["joined the chat"],
         { s2 with sockOpen := true, running := true }⟩
      else ⟨true, 1, [], s2⟩

/-- `BroadcastPeer.stop(announce)` (lines 289-300). -/
def bpStop (s : PeerLife) (announce : Bool) : LifeRes :=
  if ¬s.running then ⟨false, 0, [], s⟩
  else
    ⟨false, 0,
     if announce ∧ s.sockOpen then ["left the chat"] else [],
     { s with running := false, sockOpen := false }⟩

/-- `RelayPeer.start(name, port, room, code)` (lines 466-485) under
connect outcome `connectOk`; no port-range validation is performed. -/
def rpStart (s : PeerLife) (name : String) (port : Int) (room code : String)
    (connectOk : Bool) : LifeRes :=
  if s.running then ⟨false, 0, [], s⟩
  else
    let s1 := { s with name := if name = "" then "Anonymous" else name,
                       port := port,
                       room := if room = "" then "public" else room,
                       code := code.trim }
    if connectOk then
      ⟨false, 1, ["joined the chat (relay)"],
       { s1 with sockOpen := true, running := true }⟩
    else ⟨true, 1, [], s1⟩

/-- `RelayPeer.stop(announce)` (lines 487-498). -/
def rpStop (s : PeerLife) (announce : Bool) : LifeRes :=
  if ¬s.running then ⟨false, 0, [], s⟩
  else
    ⟨false, 0,
     if announce ∧ s.sockOpen then ["left the chat"] else [],
     { s with running := false, sockOpen := false }⟩

/-- Discovery-service lifecycle state. -/
structure DSLife where
  running : Bool
  sockOpen : Bool
deriving DecidableEq, Repr

/-- Result of `DiscoveryService.start`. -/
structure DSStartRes where
  raised : Bool
  st : DSLife
deriving DecidableEq, Repr

/-- `DiscoveryService.start()` (lines 42-64) under socket-creation
outcome `sockOk` and bind outcome `bindOk`: every failure path returns
silently (`except OSError: return`) — nothing is ever raised. -/
def dsStart (s : DSLife) (sockOk bindOk : Bool) : DSStartRes :=
  if s.running then ⟨false, s⟩
  else if ¬sockOk then ⟨false, s⟩
  else if ¬bindOk then ⟨false, s⟩
  else ⟨false, { s with running := true, sockOpen := true }⟩



/-! ## Base64 (Python `base64.b64encode` / `b64decode`), bytes as `Nat` -/

/-- The Base64 alphabet: 6-bit value to ASCII byte. -/
def b64byte (n : Nat) : Nat :=
  if n < 26 then 65 + n
  else if n < 52 then 97 + n - 26
  else if n < 62 then 48 + n - 52
  else if n = 62 then 43
  else 47

/-- ASCII byte back to 6-bit value; `none` off-alphabet. -/
def b64val (b : Nat) : Option Nat :=
  if 65 ≤ b ∧ b ≤ 90 then some (b - 65)
  else if 97 ≤ b ∧ b ≤ 122 then some (b - 97 + 26)
  else if 48 ≤ b ∧ b ≤ 57 then some (b - 48 + 52)
  else if b = 43 then some 62
  else if b = 47 then some 63
  else none

/-- `base64.b64encode`: 3 input bytes to 4 output bytes, `=` (61)
padding on the final partial group. -/
def b64encode : List Nat → List Nat
  | [] => []
  | [a] => [b64byte (a / 4), b64byte (a % 4 * 16), 61, 61]
  | [a, b] => [b64byte (a / 4), b64byte (a % 4 * 16 + b / 16), b64byte (b % 16 * 4), 61]
  | a :: b :: c :: rest =>
    b64byte (a / 4) :: b64byte (a % 4 * 16 + b / 16) ::
      b64byte (b % 16 * 4 + c / 64) :: b64byte (c % 64) :: b64encode rest

/-- `base64.b64decode` on well-padded input: processes 4-byte groups,
accepting `=` padding only at the end; `none` on bad length, bad
padding or off-alphabet bytes. -/
def b64decode : List Nat → Option (List Nat)
  | [] => some []
  | w :: x :: y :: z :: rest =>
    match b64val w, b64val x with
    | some v1, some v2 =>
      if y = 61 then
        if z = 61 ∧ rest = [] then some [v1 * 4 + v2 / 16] else none
      else
        match b64val y with
        | some v3 =>
          if z = 61 then
            if rest = [] then some [v1 * 4 + v2 / 16, v2 % 16 * 16 + v3 / 4] else none
          else
            match b64val z with
            | some v4 =>
              (b64decode rest).map
                (fun bs => (v1 * 4 + v2 / 16) :: (v2 % 16 * 16 + v3 / 4) ::
                  ((v3 % 4 * 64 + v4) :: bs))
            | none => none
        | none => none
    | _, _ => none
  | _ => none

/-! ## UTF-8 (`str.encode("utf-8")` / `bytes.decode("utf-8")`) -/

/-- UTF-8 encoding of one scalar value. -/
def utf8EncodeChar (c : Char) : List Nat :=
  let v := c.toNat
  if v < 128 then [v]
  else if v < 2048 then [192 + v / 64, 128 + v % 64]
  else if v < 65536 then [224 + v / 4096, 128 + v / 64 % 64, 128 + v % 64]
  else [240 + v / 262144, 128 + v / 4096 % 64, 128 + v / 64 % 64, 128 + v % 64]

/-- UTF-8 encoding of a character sequence. -/
def utf8Encode : List Char → List Nat
  | [] => []
  | c :: cs => utf8EncodeChar c ++ utf8Encode cs

/-- Read one UTF-8 continuation byte. -/
def readCont1 : List Nat → Option (Nat × List Nat)
  | b2 :: rest => if 128 ≤ b2 ∧ b2 < 192 then some (b2 - 128, rest) else none
  | [] => none

/-- Read two UTF-8 continuation bytes. -/
def readCont2 : List Nat → Option (Nat × List Nat)
  | b2 :: b3 :: rest =>
    if (128 ≤ b2 ∧ b2 < 192) ∧ (128 ≤ b3 ∧ b3 < 192) then
      some ((b2 - 128) * 64 + (b3 - 128), rest)
    else none
  | _ => none

/-- Read three UTF-8 continuation bytes. -/
def readCont3 : List Nat → Option (Nat × List Nat)
  | b2 :: b3 :: b4 :: rest =>
    if (128 ≤ b2 ∧ b2 < 192) ∧ (128 ≤ b3 ∧ b3 < 192) ∧ (128 ≤ b4 ∧ b4 < 192) then
      some ((b2 - 128) * 4096 + (b3 - 128) * 64 + (b4 - 128), rest)
    else none
  | _ => none

/-- UTF-8 decoding loop; `fuel` bounds the iteration count and `none`
signals a truncated or malformed sequence. -/
def utf8DecodeLoop : Nat → List Nat → Option (List Char)
  | 0, _ => none
  | _ + 1, [] => some []
  | fuel + 1, b :: rest =>
    if b < 128 then (utf8DecodeLoop fuel rest).map (fun cs => Char.ofNat b :: cs)
    else if b < 192 then none
    else if b < 224 then
      match readCont1 rest with
      | some (v, rest') =>
        (utf8DecodeLoop fuel rest').map (fun cs => Char.ofNat ((b - 192) * 64 + v) :: cs)
      | none => none
    else if b < 240 then
      match readCont2 rest with
      | some (v, rest') =>
        (utf8DecodeLoop fuel rest').map (fun cs => Char.ofNat ((b - 224) * 4096 + v) :: cs)
      | none => none
    else if b < 248 then
      match readCont3 rest with
      | some (v, rest') =>
        (utf8DecodeLoop fuel rest').map (fun cs => Char.ofNat ((b - 240) * 262144 + v) :: cs)
      | none => none
    else none

/-- `bytes.decode("utf-8")`, fail-soft. -/
def utf8Decode (bs : List Nat) : Option (List Char) :=
  utf8DecodeLoop (bs.length + 1) bs

/-! ## JSON values and `json.dumps` -/

/-- JSON values.  Numbers are modelled as integers: the envelopes the
program sends carry only string, boolean and integer fields, and
IEEE-754 floating-point values (whose `json.dumps` rendering is
Python's shortest-round-trip `float.__repr__`) are outside this
embedding. -/
inductive JVal where
  | jnull
  | jbool (b : Bool)
  | jint (n : Int)
  | jstr (s : String)
  | jarr (xs : List JVal)
  | jobj (kvs : List (String × JVal))

/-- Lowercase hexadecimal digit, as `json.dumps` renders `\uXXXX`
escapes. -/
def hexDigitChar (n : Nat) : Char :=
  if n < 10 then Char.ofNat (48 + n) else Char.ofNat (87 + n)

/-- Four lowercase hex digits of a value below `2^16`. -/
def hex4 (v : Nat) : List Char :=
  [hexDigitChar (v / 4096 % 16), hexDigitChar (v / 256 % 16),
    hexDigitChar (v / 16 % 16), hexDigitChar (v % 16)]

/-- The escape `json.dumps` emits for one character: `\"` and `\\`, the
short escapes `\n \t \r \b \f`, `\u00xx` for the other control
characters, and — when `ensure_ascii` is left at its default `True`, as
in `BroadcastPeer._encode` — `\uxxxx` for every non-ASCII character,
split into a surrogate pair beyond U+FFFF.  `RelayPeer._encode` passes
`ensure_ascii=False` and emits non-ASCII characters verbatim. -/
def escChar (ascii : Bool) (c : Char) : List Char :=
  if c = '"' then ['\\', '"']
  else if c = '\\' then ['\\', '\\']
  else if c = '\n' then ['\\', 'n']
  else if c = '\t' then ['\\', 't']
  else if c = '\r' then ['\\', 'r']
  else if c = Char.ofNat 8 then ['\\', 'b']
  else if c = Char.ofNat 12 then ['\\', 'f']
  else if c.toNat < 32 then '\\' :: 'u' :: hex4 c.toNat
  else if ascii ∧ 127 ≤ c.toNat then
    if c.toNat < 65536 then '\\' :: 'u' :: hex4 c.toNat
    else '\\' :: 'u' :: hex4 (55296 + (c.toNat - 65536) / 1024) ++
      '\\' :: 'u' :: hex4 (56320 + (c.toNat - 65536) % 1024)
  else [c]

/-- String-body escaping, character by character. -/
def escChars (ascii : Bool) : List Char → List Char
  | [] => []
  | c :: cs => escChar ascii c ++ escChars ascii cs

mutual
/-- `json.dumps` with its default separators `", "` and `": "`;
`ascii` is the `ensure_ascii` keyword (`True` in `BroadcastPeer._encode`
by default, `False` in `RelayPeer._encode`). -/
def dumps (ascii : Bool) : JVal → List Char
  | .jnull => ['n', 'u', 'l', 'l']
  | .jbool true => ['t', 'r', 'u', 'e']
  | .jbool false => ['f', 'a', 'l', 's', 'e']
  | .jint n => (intStr n).data
  | .jstr s => '"' :: (escChars ascii s.data ++ ['"'])
  | .jarr xs => '[' :: dumpsElems ascii xs
  | .jobj kvs => '{' :: dumpsMembers ascii kvs

/-- Array elements, comma-space separated, closed by `]`. -/
def dumpsElems (ascii : Bool) : List JVal → List Char
  | [] => [']']
  | [x] => dumps ascii x ++ [']']
  | x :: y :: xs => dumps ascii x ++ ',' :: ' ' :: dumpsElems ascii (y :: xs)

/-- Object members `"key": value`, comma-space separated, closed by `}`. -/
def dumpsMembers (ascii : Bool) : List (String × JVal) → List Char
  | [] => ['}']
  | [(k, v)] => '"' :: (escChars ascii k.data ++ '"' :: ':' :: ' ' :: dumps ascii v) ++ ['}']
  | (k, v) :: m :: kvs =>
    '"' :: (escChars ascii k.data ++ '"' :: ':' :: ' ' :: dumps ascii v) ++
      ',' :: ' ' :: dumpsMembers ascii (m :: kvs)
end

/-- Pairwise-distinct keys. -/
def keysUniq : List String → Bool
  | [] => true
  | k :: ks => (!(ks.contains k)) && keysUniq ks

mutual
/-- Well-formed JSON value: object keys are pairwise distinct, as a
Python dict cannot hold two equal keys.  Strings are arbitrary. -/
def wfj : JVal → Bool
  | .jnull => true
  | .jbool _ => true
  | .jint _ => true
  | .jstr _ => true
  | .jarr xs => wfjList xs
  | .jobj kvs => keysUniq (kvs.map Prod.fst) && wfjMembers kvs

/-- All list elements well-formed. -/
def wfjList : List JVal → Bool
  | [] => true
  | x :: xs => wfj x && wfjList xs

/-- All member values well-formed. -/
def wfjMembers : List (String × JVal) → Bool
  | [] => true
  | (_, v) :: kvs => wfj v && wfjMembers kvs
end

/-! ## JSON parser (`json.loads` on the fragment `dumps` emits) -/

/-- JSON whitespace. -/
def isWsChar (c : Char) : Bool := c = ' ' || c = '\t' || c = '\n' || c = '\r'

/-- Skip leading whitespace. -/
def skipWs (cs : List Char) : List Char := cs.dropWhile isWsChar

/-- Value of a string escape character. -/
def escVal (c : Char) : Option Char :=
  if c = '"' then some '"'
  else if c = '\\' then some '\\'
  else if c = '/' then some '/'
  else if c = 'n' then some '\n'
  else if c = 't' then some '\t'
  else if c = 'r' then some '\r'
  else if c = 'b' then some (Char.ofNat 8)
  else if c = 'f' then some (Char.ofNat 12)
  else none

/-- Value of a hexadecimal digit (either case, as `json.loads`). -/
def hexVal (c : Char) : Option Nat :=
  if 48 ≤ c.toNat ∧ c.toNat ≤ 57 then some (c.toNat - 48)
  else if 97 ≤ c.toNat ∧ c.toNat ≤ 102 then some (c.toNat - 87)
  else if 65 ≤ c.toNat ∧ c.toNat ≤ 70 then some (c.toNat - 55)
  else none

/-- Read exactly four hex digits. -/
def parseHex4 : List Char → Option (Nat × List Char)
  | a :: b :: c :: d :: rest =>
    match hexVal a, hexVal b, hexVal c, hexVal d with
    | some x, some y, some z, some w => some (x * 4096 + y * 256 + z * 16 + w, rest)
    | _, _, _, _ => none
  | _ => none

/-- Parse a string body up to the closing quote (strict mode: raw
control characters are rejected).  `\uXXXX` escapes are decoded, with
a surrogate pair recombined into one character; a lone surrogate is
rejected, as it is no Unicode scalar value and lies outside `Char`
(CPython's `str` can hold it, but no program envelope contains one).
`fuel` bounds the number of decoded characters; each step consumes at
least one input character, so `input length + 1` always suffices. -/
def parseStrChars : Nat → List Char → Option (List Char × List Char)
  | 0, _ => none
  | _ + 1, [] => none
  | fuel + 1, c :: rest =>
    if c = '"' then some ([], rest)
    else if c = '\\' then
      match rest with
      | [] => none
      | e :: r1 =>
        if e = 'u' then
          match parseHex4 r1 with
          | some (v, r2) =>
            if 55296 ≤ v ∧ v < 56320 then
              match r2 with
              | b1 :: b2 :: r3 =>
                if b1 = '\\' ∧ b2 = 'u' then
                  match parseHex4 r3 with
                  | some (w, r4) =>
                    if 56320 ≤ w ∧ w < 57344 then
                      (parseStrChars fuel r4).map (fun p =>
                        (Char.ofNat (65536 + (v - 55296) * 1024 + (w - 56320)) :: p.1, p.2))
                    else none
                  | none => none
                else none
              | _ => none
            else if 56320 ≤ v ∧ v < 57344 then none
            else (parseStrChars fuel r2).map (fun p => (Char.ofNat v :: p.1, p.2))
          | none => none
        else
          match escVal e with
          | some ec => (parseStrChars fuel r1).map (fun p => (ec :: p.1, p.2))
          | none => none
    else if c.toNat < 32 then none
    else (parseStrChars fuel rest).map (fun p => (c :: p.1, p.2))

/-- Numeric value of a digit run. -/
def digitsToNat (ds : List Char) : Nat :=
  ds.foldl (fun a c => a * 10 + (c.toNat - 48)) 0

/-- Parse a nonempty digit run. -/
def parseNat (cs : List Char) : Option (Nat × List Char) :=
  match cs.takeWhile Char.isDigit with
  | [] => none
  | ds => some (digitsToNat ds, cs.dropWhile Char.isDigit)

mutual
/-- Parse one JSON value; `fuel` bounds the nesting depth. -/
def parseVal : Nat → List Char → Option (JVal × List Char)
  | 0, _ => none
  | fuel + 1, cs =>
    match skipWs cs with
    | [] => none
    | c :: rest =>
      if c = 'n' then
        if rest.take 3 = ['u', 'l', 'l'] then some (.jnull, rest.drop 3) else none
      else if c = 't' then
        if rest.take 3 = ['r', 'u', 'e'] then some (.jbool true, rest.drop 3) else none
      else if c = 'f' then
        if rest.take 4 = ['a', 'l', 's', 'e'] then some (.jbool false, rest.drop 4) else none
      else if c = '"' then
        (parseStrChars (rest.length + 1) rest).map (fun p => (.jstr ⟨p.1⟩, p.2))
      else if c = '[' then
        match skipWs rest with
        | c2 :: r2 =>
          if c2 = ']' then some (.jarr [], r2)
          else (parseElems fuel rest).map (fun p => (.jarr p.1, p.2))
        | [] => (parseElems fuel rest).map (fun p => (.jarr p.1, p.2))
      else if c = '{' then
        match skipWs rest with
        | c2 :: r2 =>
          if c2 = '}' then some (.jobj [], r2)
          else (parseMembers fuel rest).map (fun p => (.jobj p.1, p.2))
        | [] => (parseMembers fuel rest).map (fun p => (.jobj p.1, p.2))
      else if c = '-' then
        (parseNat rest).map (fun p => (.jint (-(p.1 : Int)), p.2))
      else if c.isDigit then
        (parseNat (c :: rest)).map (fun p => (.jint (p.1 : Int), p.2))
      else none

/-- Parse one or more comma-separated array elements and the closing
bracket. -/
def parseElems : Nat → List Char → Option (List JVal × List Char)
  | 0, _ => none
  | fuel + 1, cs =>
    match parseVal fuel cs with
    | some (v, r) =>
      match skipWs r with
      | c :: r2 =>
        if c = ',' then (parseElems fuel r2).map (fun p => (v :: p.1, p.2))
        else if c = ']' then some ([v], r2)
        else none
      | [] => none
    | none => none

/-- Parse one or more `"key": value` members and the closing brace. -/
def parseMembers : Nat → List Char → Option (List (String × JVal) × List Char)
  | 0, _ => none
  | fuel + 1, cs =>
    match skipWs cs with
    | c0 :: rest =>
      if c0 = '"' then
        match parseStrChars (rest.length + 1) rest with
        | some (k, r) =>
          match skipWs r with
          | c2 :: r2 =>
            if c2 = ':' then
              match parseVal fuel r2 with
              | some (v, r3) =>
                match skipWs r3 with
                | c3 :: r4 =>
                  if c3 = ',' then
                    (parseMembers fuel r4).map (fun p => ((⟨k⟩, v) :: p.1, p.2))
                  else if c3 = '}' then some ([(⟨k⟩, v)], r4)
                  else none
                | [] => none
              | none => none
            else none
          | [] => none
        | none => none
      else none
    | [] => none
end

/-- `json.loads`: parse a complete value with only trailing whitespace. -/
def loads (cs : List Char) : Option JVal :=
  match parseVal (cs.length + 1) cs with
  | some (v, rest) => if skipWs rest = [] then some v else none
  | none => none

/-! ## Parser correctness on the fragment `dumps` emits -/

/-- The remainder after a dumped value never starts with a digit (so a
dumped number is not extended by what follows). -/
def RestOk : List Char → Prop
  | [] => True
  | c :: _ => c.isDigit = false

mutual
/-- Fuel needed by `parseVal` to parse a dumped value. -/
def jweight : JVal → Nat
  | .jarr xs => 1 + jweightList xs
  | .jobj kvs => 1 + jweightMembers kvs
  | _ => 1

/-- Fuel needed by `parseElems` for the dumped elements (the same fuel
is handed to the element parse and the tail loop, hence `max`). -/
def jweightList : List JVal → Nat
  | [] => 1
  | x :: xs => 1 + max (jweight x) (jweightList xs)

/-- Fuel needed by `parseMembers` for the dumped members. -/
def jweightMembers : List (String × JVal) → Nat
  | [] => 1
  | (_, v) :: kvs => 1 + max (jweight v) (jweightMembers kvs)
end

/-! ## The chat/relay wire codec (`BroadcastPeer._encode`/`_decode`,
`RelayPeer._encode`/`_decode`): JSON serialization, UTF-8 bytes, Base64. -/

/-- `BroadcastPeer._encode`:
`base64.b64encode(json.dumps(payload).encode("utf-8"))`, with
`ensure_ascii` left at its default `True`.  (`json.dumps` never fails
on a `JVal`, so the `Optional` of the source is always a value.) -/
def chatEncode (v : JVal) : List Nat :=
  b64encode (utf8Encode (dumps true v))

/-- `RelayPeer._encode`: the same pipeline with `ensure_ascii=False`. -/
def relayEncode (v : JVal) : List Nat :=
  b64encode (utf8Encode (dumps false v))

/-- `_decode`: `json.loads(base64.b64decode(data).decode("utf-8"))` with
every failure (bad Base64, bad UTF-8, unparsable JSON) caught and turned
into `none`. -/
def chatDecode (bs : List Nat) : Option JVal :=
  match b64decode bs with
  | some raw =>
    match utf8Decode raw with
    | some cs => loads cs
    | none => none
  | none => none

/-- The table well-formedness invariant of the `p2p_server.py` discovery
service: distinct keys, and each binding's key is the `_room_key` of its
entry. -/
def PS.WFTable (l : List (String × RoomEntry)) : Prop :=
  DKeysNodup l ∧ ∀ kv ∈ l, kv.1 = PS.roomKey kv.2

/-! ### Dictionary lemmas -/

theorem dget_dinsert_self {α : Type} (k : String) (v : α) (l : List (String × α)) :
    dget k (dinsert k v l) = some v := by
  induction l with
  | nil => simp [dget, dinsert]
  | cons h t ih =>
    by_cases hk : h.1 = k
    · simp [dget, dinsert, hk]
    · simp [dget, dinsert, hk, ih]

theorem dget_dinsert_ne {α : Type} {k k' : String} (h : k' ≠ k) (v : α)
    (l : List (String × α)) : dget k (dinsert k' v l) = dget k l := by
  induction l with
  | nil => simp [dget, dinsert, h]
  | cons hd t ih =>
    by_cases hk : hd.1 = k'
    · simp [dget, dinsert, hk, h]
    · by_cases hk2 : hd.1 = k
      · simp [dget, dinsert, hk, hk2, Ne.symm h]
      · simp [dget, dinsert, hk, hk2, ih]

theorem dget_derase_ne {α : Type} {k k' : String} (h : k' ≠ k)
    (l : List (String × α)) : dget k (derase k' l) = dget k l := by
  induction l with
  | nil => simp [derase]
  | cons hd t ih =>
    by_cases hk : hd.1 = k'
    · simp [derase, dget, hk, h, Ne.symm h]
    · by_cases hk2 : hd.1 = k
      · simp [derase, dget, hk, hk2, Ne.symm h]
      · simp [derase, dget, hk, hk2, ih]

theorem dget_eq_none_of_not_mem {α : Type} {k : String} {l : List (String × α)}
    (h : k ∉ l.map Prod.fst) : dget k l = none := by
  induction l with
  | nil => simp [dget]
  | cons hd t ih =>
    simp only [List.map_cons, List.mem_cons, not_or] at h
    simp [dget, Ne.symm h.1, ih h.2]

theorem dget_derase_self {α : Type} (k : String) (l : List (String × α))
    (h : DKeysNodup l) : dget k (derase k l) = none := by
  induction l with
  | nil => simp [derase, dget]
  | cons hd t ih =>
    simp only [DKeysNodup, List.map_cons, List.nodup_cons] at h
    by_cases hk : hd.1 = k
    · simpa [derase, hk, DKeysNodup] using dget_eq_none_of_not_mem (hk ▸ h.1)
    · simp [derase, dget, hk, ih h.2]

theorem dinsert_keys_subset {α : Type} (k : String) (v : α)
    (l : List (String × α)) : (dinsert k v l).map Prod.fst ⊆ k :: l.map Prod.fst := by
  induction l with
  | nil => simp [dinsert]
  | cons hd t ih =>
    by_cases hk : hd.1 = k
    · simp only [dinsert, if_pos hk, List.map_cons]
      intro x hx
      rcases List.mem_cons.1 hx with h3 | h3
      · simp [h3]
      · simp [h3]
    · simp only [dinsert, if_neg hk, List.map_cons]
      intro x hx
      rcases List.mem_cons.1 hx with h3 | h3
      · simp [h3]
      · rcases List.mem_cons.1 (ih h3) with h4 | h4
        · simp [h4]
        · simp [h4]

theorem derase_keys_subset {α : Type} (k : String)
    (l : List (String × α)) : (derase k l).map Prod.fst ⊆ l.map Prod.fst := by
  induction l with
  | nil => simp [derase]
  | cons hd t ih =>
    by_cases hk : hd.1 = k
    · simp only [derase, if_pos hk, List.map_cons]
      intro x hx
      simp [hx]
    · simp only [derase, if_neg hk, List.map_cons]
      intro x hx
      rcases List.mem_cons.1 hx with h3 | h3
      · simp [h3]
      · simp [ih h3]

theorem dkeys_dinsert {α : Type} (k : String) (v : α) (l : List (String × α))
    (h : DKeysNodup l) : DKeysNodup (dinsert k v l) := by
  induction l with
  | nil => simp [dinsert, DKeysNodup]
  | cons hd t ih =>
    simp only [DKeysNodup, List.map_cons, List.nodup_cons] at h
    by_cases hk : hd.1 = k
    · simp only [dinsert, if_pos hk, DKeysNodup, List.map_cons, List.nodup_cons]
      exact ⟨hk ▸ h.1, h.2⟩
    · have hni := ih h.2
      simp only [dinsert, if_neg hk, DKeysNodup, List.map_cons, List.nodup_cons]
      refine ⟨fun hmem => ?_, hni⟩
      rcases List.mem_cons.1 (dinsert_keys_subset k v t hmem) with h3 | h3
      · exact hk h3
      · exact h.1 h3

theorem dkeys_derase {α : Type} (k : String) (l : List (String × α))
    (h : DKeysNodup l) : DKeysNodup (derase k l) := by
  induction l with
  | nil => simp [derase, DKeysNodup]
  | cons hd t ih =>
    simp only [DKeysNodup, List.map_cons, List.nodup_cons] at h
    by_cases hk : hd.1 = k
    · simp only [derase, if_pos hk]
      exact h.2
    · simp only [derase, if_neg hk, DKeysNodup, List.map_cons, List.nodup_cons]
      exact ⟨fun hm => h.1 (derase_keys_subset k t hm), ih h.2⟩

theorem dinsert_mem_or {α : Type} {kv : String × α} {k : String} {v : α}
    {l : List (String × α)} (h : kv ∈ dinsert k v l) : kv = (k, v) ∨ kv ∈ l := by
  induction l with
  | nil => simpa [dinsert] using h
  | cons hd t ih =>
    by_cases hk : hd.1 = k
    · simp only [dinsert, if_pos hk, List.mem_cons] at h
      rcases h with h | h
      · exact Or.inl h
      · exact Or.inr (List.mem_cons_of_mem _ h)
    · simp only [dinsert, if_neg hk, List.mem_cons] at h
      rcases h with h | h
      · exact Or.inr (by simp [h])
      · rcases ih h with h2 | h2
        · exact Or.inl h2
        · exact Or.inr (List.mem_cons_of_mem _ h2)

theorem derase_mem_subset {α : Type} {kv : String × α} {k : String}
    {l : List (String × α)} (h : kv ∈ derase k l) : kv ∈ l := by
  induction l with
  | nil => simp [derase] at h
  | cons hd t ih =>
    by_cases hk : hd.1 = k
    · simp only [derase, if_pos hk] at h
      exact List.mem_cons_of_mem _ h
    · simp only [derase, if_neg hk, List.mem_cons] at h
      rcases h with h | h
      · simp [h]
      · exact List.mem_cons_of_mem _ (ih h)

theorem dmem_eq_of_nodup {α : Type} {k : String} {e1 e2 : α}
    {l : List (String × α)} (hn : DKeysNodup l)
    (h1 : (k, e1) ∈ l) (h2 : (k, e2) ∈ l) : e1 = e2 := by
  induction l with
  | nil => simp at h1
  | cons hd t ih =>
    simp only [DKeysNodup, List.map_cons, List.nodup_cons] at hn
    rcases List.mem_cons.1 h1 with ha | ha <;> rcases List.mem_cons.1 h2 with hb | hb
    · have := ha.trans hb.symm
      exact congrArg Prod.snd this
    · exact absurd (List.mem_map_of_mem Prod.fst hb) (by rw [← ha] at hn; simpa using hn.1)
    · exact absurd (List.mem_map_of_mem Prod.fst ha) (by rw [← hb] at hn; simpa using hn.1)
    · exact ih hn.2 ha hb

/-! ### Branch lemmas for the `p2p_server.py` discovery handlers -/

theorem PS.announce_discard (s : PS.DState) (p : RoomMsg) {port : Int} {e : RoomEntry}
    (hp : p.port = some port)
    (he : dget (PS.roomKey ⟨p.name.getD "", port, p.priv, p.creator.getD "", "", false⟩)
      s.rooms = some e)
    (hcr : e.creator = s.peerId)
    (hn : p.name.getD "" ≠ "") (hc : p.creator.getD "" ≠ "") :
    PS.handleAnnounce s p = (s, false) := by
  simp only [PS.handleAnnounce, hp, if_neg (not_or.2 ⟨hn, hc⟩), he, if_pos hcr]

theorem PS.announce_insert (s : PS.DState) (p : RoomMsg) {port : Int}
    (hp : p.port = some port)
    (hno : ∀ e, dget (PS.roomKey ⟨p.name.getD "", port, p.priv, p.creator.getD "", "", false⟩)
      s.rooms = some e → e.creator ≠ s.peerId)
    (hn : p.name.getD "" ≠ "") (hc : p.creator.getD "" ≠ "") :
    PS.handleAnnounce s p =
      ({ s with rooms := dinsert
                  (PS.roomKey ⟨p.name.getD "", port, p.priv, p.creator.getD "", "", false⟩)
                  (⟨p.name.getD "", port, p.priv, p.creator.getD "", "", false⟩ : RoomEntry)
                  s.rooms },
       true) := by
  simp only [PS.handleAnnounce, hp, if_neg (not_or.2 ⟨hn, hc⟩)]
  cases hg : dget (PS.roomKey ⟨p.name.getD "", port, p.priv, p.creator.getD "", "", false⟩)
      s.rooms with
  | none => rfl
  | some e => simp [if_neg (hno e hg)]

theorem PS.remove_ignore (s : PS.DState) (p : RoomMsg) {port : Int} {lr : RoomEntry}
    (hp : p.port = some port)
    (hl : dget (PS.roomKey ⟨p.name.getD "", port, p.priv, p.creator.getD "", "", false⟩)
      s.localRooms = some lr)
    (hcr : lr.creator = s.peerId) :
    PS.handleRemove s p = (s, false) := by
  simp only [PS.handleRemove, hp, hl, if_pos hcr]

theorem PS.remove_delete (s : PS.DState) (p : RoomMsg) {port : Int}
    (hp : p.port = some port)
    (hno : ∀ lr, dget (PS.roomKey ⟨p.name.getD "", port, p.priv, p.creator.getD "", "", false⟩)
      s.localRooms = some lr → lr.creator ≠ s.peerId) :
    PS.handleRemove s p =
      ({ s with
          rooms := derase
            (PS.roomKey ⟨p.name.getD "", port, p.priv, p.creator.getD "", "", false⟩) s.rooms,
          localRooms := derase
            (PS.roomKey ⟨p.name.getD "", port, p.priv, p.creator.getD "", "", false⟩)
            s.localRooms },
       (dget (PS.roomKey ⟨p.name.getD "", port, p.priv, p.creator.getD "", "", false⟩)
         s.rooms).isSome) := by
  simp only [PS.handleRemove, hp]
  cases hg : dget (PS.roomKey ⟨p.name.getD "", port, p.priv, p.creator.getD "", "", false⟩)
      s.localRooms with
  | none => rfl
  | some lr => simp [if_neg (hno lr hg)]

/-- The `p2p_server.py` room key reads only the name and port fields. -/
theorem PS.roomKey_eq_of_name_port (r r' : RoomEntry)
    (hn : r.name = r'.name) (hp : r.port = r'.port) :
    PS.roomKey r = PS.roomKey r' := by
  simp [PS.roomKey, hn, hp]

/-- C2 (amended): in the `p2p_server.py` discovery service, a
`room_remove` whose key is locally owned (present in `local_rooms` with
the local peer id as creator) leaves the table unchanged; otherwise the
key is deleted from both tables, with subscribers notified iff an entry
was present; consequently an announce followed by a matching remove
while the key is not locally owned leaves the table without the entry,
and a locally owned entry persists through both.  (In the `client.py`
variant the remove is applied regardless of ownership; see the
counterexample.) -/
theorem claim_C2_remove_authority :
    (∀ (s : PS.DState) (p : RoomMsg) (port : Int) (lr : RoomEntry),
      p.port = some port →
      dget (PS.roomKey ⟨p.name.getD "", port, p.priv, p.creator.getD "", "", false⟩)
        s.localRooms = some lr →
      lr.creator = s.peerId →
      PS.handleRemove s p = (s, false)) ∧
    (∀ (s : PS.DState) (p : RoomMsg) (port : Int),
      p.port = some port →
      (∀ lr, dget (PS.roomKey ⟨p.name.getD "", port, p.priv, p.creator.getD "", "", false⟩)
        s.localRooms = some lr → lr.creator ≠ s.peerId) →
      PS.handleRemove s p =
        ({ s with rooms := derase
                    (PS.roomKey ⟨p.name.getD "", port, p.priv, p.creator.getD "", "", false⟩)
                    s.rooms,
                  localRooms := derase
                    (PS.roomKey ⟨p.name.getD "", port, p.priv, p.creator.getD "", "", false⟩)
                    s.localRooms },
         (dget (PS.roomKey ⟨p.name.getD "", port, p.priv, p.creator.getD "", "", false⟩)
           s.rooms).isSome)) ∧
    (∀ (s : PS.DState) (n : String) (port : Int) (b1 b2 : Bool) (ca : String)
        (cr : Option String),
      n ≠ "" → ca ≠ "" → DKeysNodup s.rooms →
      (∀ lr, dget (PS.roomKey ⟨n, port, b1, ca, "", false⟩) s.localRooms = some lr →
        lr.creator ≠ s.peerId) →
      dget (PS.roomKey ⟨n, port, b1, ca, "", false⟩)
        ((PS.handleRemove ((PS.handleAnnounce s ⟨some n, some port, b1, some ca⟩).1)
          ⟨some n, some port, b2, cr⟩).1).rooms = none) ∧
    (∀ (s : PS.DState) (n : String) (port : Int) (b1 b2 : Bool) (ca : String)
        (cr : Option String) (e lr : RoomEntry),
      n ≠ "" → ca ≠ "" →
      dget (PS.roomKey ⟨n, port, b1, ca, "", false⟩) s.rooms = some e →
      e.creator = s.peerId →
      dget (PS.roomKey ⟨n, port, b1, ca, "", false⟩) s.localRooms = some lr →
      lr.creator = s.peerId →
      dget (PS.roomKey ⟨n, port, b1, ca, "", false⟩)
        ((PS.handleRemove ((PS.handleAnnounce s ⟨some n, some port, b1, some ca⟩).1)
          ⟨some n, some port, b2, cr⟩).1).rooms = some e) := by
  refine ⟨?_, ?_, ?_, ?_⟩
  · intro s p port lr hp hl hcr
    exact PS.remove_ignore _ _ hp hl hcr
  · intro s p port hp hno
    exact PS.remove_delete _ _ hp hno
  · intro s n port b1 b2 ca cr hn hca hnodup hnot
    have hkey : PS.roomKey ⟨n, port, b2, cr.getD "", "", false⟩ =
        PS.roomKey ⟨n, port, b1, ca, "", false⟩ :=
      PS.roomKey_eq_of_name_port _ _ rfl rfl
    cases hg : dget (PS.roomKey ⟨n, port, b1, ca, "", false⟩) s.rooms with
    | some e =>
      by_cases he : e.creator = s.peerId
      · rw [PS.announce_discard _ ⟨some n, some port, b1, some ca⟩ rfl
          (by simpa using hg) he (by simpa using hn) (by simpa using hca)]
        rw [PS.remove_delete _ ⟨some n, some port, b2, cr⟩ rfl
          (by simpa [hkey] using hnot)]
        simpa [hkey] using dget_derase_self _ s.rooms hnodup
      · rw [PS.announce_insert _ ⟨some n, some port, b1, some ca⟩ rfl
          (by simpa [hg] using fun h => absurd h he) (by simpa using hn)
          (by simpa using hca)]
        rw [PS.remove_delete _ ⟨some n, some port, b2, cr⟩ rfl
          (by simpa [hkey] using hnot)]
        simpa [hkey] using
          dget_derase_self _ _ (dkeys_dinsert _ _ s.rooms hnodup)
    | none =>
      rw [PS.announce_insert _ ⟨some n, some port, b1, some ca⟩ rfl
        (by simp [hg]) (by simpa using hn) (by simpa using hca)]
      rw [PS.remove_delete _ ⟨some n, some port, b2, cr⟩ rfl
        (by simpa [hkey] using hnot)]
      simpa [hkey] using
        dget_derase_self _ _ (dkeys_dinsert _ _ s.rooms hnodup)
  · intro s n port b1 b2 ca cr e lr hn hca he hecr hl hlcr
    rw [PS.announce_discard _ ⟨some n, some port, b1, some ca⟩ rfl
      (by simpa using he) hecr (by simpa using hn) (by simpa using hca)]
    rw [PS.remove_ignore _ ⟨some n, some port, b2, cr⟩ rfl
      (by simpa [PS.roomKey_eq_of_name_port (⟨n, port, b2, cr.getD "", "", false⟩ : RoomEntry) ⟨n, port, b1, ca, "", false⟩ rfl rfl] using hl) hlcr]
    exact he

/-- C2 counterexample: in the `client.py` discovery service the claim
fails — a `room_remove` for a room that is locally owned by the
receiving process (creator equal to the local peer id, present in
`local_rooms`) deletes the entry instead of being ignored. -/
theorem claim_C2_counterexample :
    (dget "room|5000|me"
      (PS.DState.mk "me"
        [("room|5000|me", ⟨"room", 5000, false, "me", "secret", true⟩)]
        [("room|5000|me", ⟨"room", 5000, false, "me", "secret", true⟩)]).localRooms =
      some ⟨"room", 5000, false, "me", "secret", true⟩) ∧
    (CL.handleRemove
      (PS.DState.mk "me"
        [("room|5000|me", ⟨"room", 5000, false, "me", "secret", true⟩)]
        [("room|5000|me", ⟨"room", 5000, false, "me", "secret", true⟩)])
      ⟨some "room", some 5000, false, some "me"⟩ =
      (PS.DState.mk "me" [] [], true)) := by
  constructor
  · decide
  · decide

/-- C2 witness: the `p2p_server.py` remove handler applied at concrete
inputs — a locally owned entry survives a spoofed `room_remove`. -/
theorem claim_C2_witness :
    PS.handleRemove
      (PS.DState.mk "me"
        [("room|5000", ⟨"room", 5000, false, "me", "", true⟩)]
        [("room|5000", ⟨"room", 5000, false, "me", "", true⟩)])
      ⟨some "room", some 5000, false, some "other"⟩ =
      (PS.DState.mk "me"
        [("room|5000", ⟨"room", 5000, false, "me", "", true⟩)]
        [("room|5000", ⟨"room", 5000, false, "me", "", true⟩)], false) :=
  claim_C2_remove_authority.1
    (PS.DState.mk "me"
      [("room|5000", ⟨"room", 5000, false, "me", "", true⟩)]
      [("room|5000", ⟨"room", 5000, false, "me", "", true⟩)])
    ⟨some "room", some 5000, false, some "other"⟩ 5000
    ⟨"room", 5000, false, "me", "", true⟩ rfl (by decide) (by decide)

/-- C3 (amended): in the `p2p_server.py` discovery service, a
well-formed `room_announce` whose key is already present with the local
peer id as stored creator is discarded with no table change; otherwise
the entry is inserted/overwritten under that key and subscribers are
notified.  (In the `client.py` variant the announcement overwrites even
a self-owned entry; see the counterexample.) -/
theorem claim_C3_announce_authority :
    (∀ (s : PS.DState) (p : RoomMsg) (port : Int) (e : RoomEntry),
      p.port = some port → p.name.getD "" ≠ "" → p.creator.getD "" ≠ "" →
      dget (PS.roomKey ⟨p.name.getD "", port, p.priv, p.creator.getD "", "", false⟩)
        s.rooms = some e →
      e.creator = s.peerId →
      PS.handleAnnounce s p = (s, false)) ∧
    (∀ (s : PS.DState) (p : RoomMsg) (port : Int),
      p.port = some port → p.name.getD "" ≠ "" → p.creator.getD "" ≠ "" →
      (∀ e, dget (PS.roomKey ⟨p.name.getD "", port, p.priv, p.creator.getD "", "", false⟩)
        s.rooms = some e → e.creator ≠ s.peerId) →
      PS.handleAnnounce s p =
        ({ s with rooms := dinsert
                    (PS.roomKey ⟨p.name.getD "", port, p.priv, p.creator.getD "", "", false⟩)
                    (⟨p.name.getD "", port, p.priv, p.creator.getD "", "", false⟩ : RoomEntry)
                    s.rooms },
         true)) := by
  constructor
  · intro s p port e hp hn hc he hcr
    exact PS.announce_discard _ _ hp he hcr hn hc
  · intro s p port hp hn hc hno
    exact PS.announce_insert _ _ hp hno hn hc

/-- C3 counterexample: in the `client.py` discovery service a remote
re-announcement of a room whose stored entry is owned by the receiving
process (creator = local peer id) is not discarded: it overwrites the
owned entry (losing its code and local flag). -/
theorem claim_C3_counterexample :
    (dget "room|5000|me"
      (PS.DState.mk "me"
        [("room|5000|me", ⟨"room", 5000, false, "me", "secret", true⟩)]
        [("room|5000|me", ⟨"room", 5000, false, "me", "secret", true⟩)]).rooms =
      some ⟨"room", 5000, false, "me", "secret", true⟩) ∧
    (CL.handleAnnounce
      (PS.DState.mk "me"
        [("room|5000|me", ⟨"room", 5000, false, "me", "secret", true⟩)]
        [("room|5000|me", ⟨"room", 5000, false, "me", "secret", true⟩)])
      ⟨some "room", some 5000, false, some "me"⟩ =
      (PS.DState.mk "me"
        [("room|5000|me", ⟨"room", 5000, false, "me", "", false⟩)]
        [("room|5000|me", ⟨"room", 5000, false, "me", "secret", true⟩)], true)) ∧
    (⟨"room", 5000, false, "me", "", false⟩ : RoomEntry) ≠
      ⟨"room", 5000, false, "me", "secret", true⟩ := by
  refine ⟨by decide, by decide, by decide⟩

/-- C3 witness: a remote claim over a self-owned key is discarded by the
`p2p_server.py` announce handler at concrete inputs. -/
theorem claim_C3_witness :
    PS.handleAnnounce
      (PS.DState.mk "me"
        [("room|5000", ⟨"room", 5000, false, "me", "", true⟩)] [])
      ⟨some "room", some 5000, false, some "other"⟩ =
      (PS.DState.mk "me"
        [("room|5000", ⟨"room", 5000, false, "me", "", true⟩)] [], false) :=
  claim_C3_announce_authority.1
    (PS.DState.mk "me"
      [("room|5000", ⟨"room", 5000, false, "me", "", true⟩)] [])
    ⟨some "room", some 5000, false, some "other"⟩ 5000
    ⟨"room", 5000, false, "me", "", true⟩ rfl (by decide) (by decide)
    (by decide) (by decide)

theorem PS.wf_dinsert_self {l : List (String × RoomEntry)} (r : RoomEntry)
    (h : PS.WFTable l) : PS.WFTable (dinsert (PS.roomKey r) r l) := by
  refine ⟨dkeys_dinsert _ _ _ h.1, fun kv hkv => ?_⟩
  rcases dinsert_mem_or hkv with h2 | h2
  · rw [h2]
  · exact h.2 kv h2

theorem PS.wf_derase {l : List (String × RoomEntry)} (k : String)
    (h : PS.WFTable l) : PS.WFTable (derase k l) :=
  ⟨dkeys_derase _ _ h.1, fun kv hkv => h.2 kv (derase_mem_subset hkv)⟩

/-- C4 (amended): in the `p2p_server.py` discovery service the claim
holds — the key is a function of `(name, port)` alone, every operation
preserves the keyed-table invariant, and a well-formed table holds at
most one entry per `(name, port)`.  (In the `client.py` variant the
creator id also participates in the key, so two entries with the same
`(name, port)` coexist; see the counterexample.) -/
theorem claim_C4_room_key :
    (∀ r r' : RoomEntry, r.name = r'.name → r.port = r'.port →
      PS.roomKey r = PS.roomKey r') ∧
    (∀ (s : PS.DState) (p : RoomMsg),
      PS.WFTable s.rooms →
      PS.WFTable (PS.handleAnnounce s p).1.rooms ∧
      (PS.handleAnnounce s p).1.localRooms = s.localRooms) ∧
    (∀ (s : PS.DState) (p : RoomMsg),
      PS.WFTable s.rooms → PS.WFTable s.localRooms →
      PS.WFTable (PS.handleRemove s p).1.rooms ∧
      PS.WFTable (PS.handleRemove s p).1.localRooms) ∧
    (∀ (s : PS.DState) (r : RoomEntry),
      PS.WFTable s.rooms → PS.WFTable s.localRooms →
      PS.WFTable (PS.addLocalRoom s r).rooms ∧
      PS.WFTable (PS.addLocalRoom s r).localRooms) ∧
    (∀ (s : PS.DState) (r : RoomEntry),
      PS.WFTable s.rooms → PS.WFTable s.localRooms →
      PS.WFTable (PS.removeRoom s r).1.rooms ∧
      PS.WFTable (PS.removeRoom s r).1.localRooms) ∧
    (∀ (l : List (String × RoomEntry)) (k1 k2 : String) (e1 e2 : RoomEntry),
      PS.WFTable l → (k1, e1) ∈ l → (k2, e2) ∈ l →
      e1.name = e2.name → e1.port = e2.port → k1 = k2 ∧ e1 = e2) := by
  refine ⟨?_, ?_, ?_, ?_, ?_, ?_⟩
  · intro r r' hn hp
    simp [PS.roomKey, hn, hp]
  · intro s p hwf
    rcases hp : p.port with _ | port
    · simp [PS.handleAnnounce, hp, hwf]
    · by_cases hv : p.name.getD "" = "" ∨ p.creator.getD "" = ""
      · simp [PS.handleAnnounce, hp, if_pos hv, hwf]
      · push_neg at hv
        by_cases hown : ∀ e,
            dget (PS.roomKey ⟨p.name.getD "", port, p.priv, p.creator.getD "", "", false⟩)
              s.rooms = some e → e.creator ≠ s.peerId
        · rw [PS.announce_insert _ _ hp hown hv.1 hv.2]
          exact ⟨PS.wf_dinsert_self _ hwf, rfl⟩
        · push_neg at hown
          rcases hown with ⟨e, he, hecr⟩
          rw [PS.announce_discard _ _ hp he hecr hv.1 hv.2]
          exact ⟨hwf, rfl⟩
  · intro s p hwr hwl
    rcases hp : p.port with _ | port
    · simp [PS.handleRemove, hp, hwr, hwl]
    · by_cases hown : ∀ lr,
          dget (PS.roomKey ⟨p.name.getD "", port, p.priv, p.creator.getD "", "", false⟩)
            s.localRooms = some lr → lr.creator ≠ s.peerId
      · rw [PS.remove_delete _ _ hp hown]
        exact ⟨PS.wf_derase _ hwr, PS.wf_derase _ hwl⟩
      · push_neg at hown
        rcases hown with ⟨lr, hl, hcr⟩
        rw [PS.remove_ignore _ _ hp hl hcr]
        exact ⟨hwr, hwl⟩
  · intro s r hwr hwl
    exact ⟨PS.wf_dinsert_self _ hwr, PS.wf_dinsert_self _ hwl⟩
  · intro s r hwr hwl
    exact ⟨PS.wf_derase _ hwr, PS.wf_derase _ hwl⟩
  · intro l k1 k2 e1 e2 hwf h1 h2 hn hp
    have hk1 : k1 = PS.roomKey e1 := hwf.2 _ h1
    have hk2 : k2 = PS.roomKey e2 := hwf.2 _ h2
    have hkk : k1 = k2 := by
      rw [hk1, hk2]
      simp [PS.roomKey, hn, hp]
    refine ⟨hkk, ?_⟩
    exact dmem_eq_of_nodup hwf.1 (hkk ▸ h1) h2

/-- C4 counterexample: in the `client.py` discovery service two
announcements for the same `(name, port)` by different creators yield
two simultaneous table entries with that `(name, port)` — the creator id
participates in the key. -/
theorem claim_C4_counterexample :
    ((CL.handleAnnounce
        ((CL.handleAnnounce (PS.DState.mk "me" [] [])
          ⟨some "room", some 5000, false, some "a"⟩).1)
        ⟨some "room", some 5000, false, some "b"⟩).1.rooms =
      [("room|5000|a", ⟨"room", 5000, false, "a", "", false⟩),
       ("room|5000|b", ⟨"room", 5000, false, "b", "", false⟩)]) ∧
    ("room|5000|a" : String) ≠ "room|5000|b" ∧
    (⟨"room", 5000, false, "a", "", false⟩ : RoomEntry).name =
      (⟨"room", 5000, false, "b", "", false⟩ : RoomEntry).name ∧
    (⟨"room", 5000, false, "a", "", false⟩ : RoomEntry).port =
      (⟨"room", 5000, false, "b", "", false⟩ : RoomEntry).port := by
  refine ⟨by decide, by decide, rfl, rfl⟩

/-- C4 witness: the announce-handler invariant preservation applied at a
concrete well-formed table. -/
theorem claim_C4_witness :
    PS.WFTable (PS.handleAnnounce
      (PS.DState.mk "me" [("room|5000", ⟨"room", 5000, false, "x", "", false⟩)] [])
      ⟨some "other", some 6000, true, some "y"⟩).1.rooms :=
  (claim_C4_room_key.2.1
    (PS.DState.mk "me" [("room|5000", ⟨"room", 5000, false, "x", "", false⟩)] [])
    ⟨some "other", some 6000, true, some "y"⟩
    ⟨by unfold DKeysNodup; decide, by decide⟩).1

/-- C5: an envelope whose room or code differs from the session's own
produces no callback events — for the broadcast transport (which also
leaves all state untouched) and for the relay transport. -/
theorem claim_C5_room_code_filter :
    (∀ (s : BPState) (p : Payload) (now : ℚ),
      p.room.getD "public" ≠ s.room ∨ p.code.getD "" ≠ s.code →
      bpRecv s p now = ([], s)) ∧
    (∀ (s : RPState) (p : Payload),
      p.room.getD "public" ≠ s.room ∨ p.code.getD "" ≠ s.code →
      rpRecv s p = []) := by
  constructor
  · intro s p now h
    by_cases hid : p.id = some s.peerId
    · simp [bpRecv, hid]
    · simp [bpRecv, hid, h]
  · intro s p h
    by_cases hid : p.id = some s.peerId
    · simp [rpRecv, hid]
    · simp [rpRecv, hid, h]

/-- C5 witness: a chat envelope for room "other" is dropped by a session
in room "public" on both transports. -/
theorem claim_C5_witness :
    (bpRecv ⟨"me", "public", "", ⟨[], []⟩, true, true, true⟩
      ⟨some "chat", some "peer", some "bob", some "hi", some "other", some "", none⟩ 0 =
      ([], ⟨"me", "public", "", ⟨[], []⟩, true, true, true⟩)) ∧
    (rpRecv ⟨"me", "public", "", true, true, true⟩
      ⟨some "chat", some "peer", some "bob", some "hi", some "other", some "", none⟩ = []) :=
  ⟨claim_C5_room_code_filter.1 ⟨"me", "public", "", ⟨[], []⟩, true, true, true⟩
    ⟨some "chat", some "peer", some "bob", some "hi", some "other", some "", none⟩ 0
    (Or.inl (by decide)),
   claim_C5_room_code_filter.2 ⟨"me", "public", "", true, true, true⟩
    ⟨some "chat", some "peer", some "bob", some "hi", some "other", some "", none⟩
    (Or.inl (by decide))⟩

/-- C6: an envelope whose id equals the receiving session's own peer id
produces no callback events, whatever its type — on both transports. -/
theorem claim_C6_self_filter :
    (∀ (s : BPState) (p : Payload) (now : ℚ),
      p.id = some s.peerId → bpRecv s p now = ([], s)) ∧
    (∀ (s : RPState) (p : Payload),
      p.id = some s.peerId → rpRecv s p = []) := by
  constructor
  · intro s p now h
    simp [bpRecv, h]
  · intro s p h
    simp [rpRecv, h]

/-- C6 witness: a self-sent system envelope is dropped by both
transports at concrete inputs. -/
theorem claim_C6_witness :
    (bpRecv ⟨"me", "public", "", ⟨[], []⟩, true, true, true⟩
      ⟨some "system", some "me", some "me", some "left the chat", some "public", some "", none⟩ 0 =
      ([], ⟨"me", "public", "", ⟨[], []⟩, true, true, true⟩)) ∧
    (rpRecv ⟨"me", "public", "", true, true, true⟩
      ⟨some "system", some "me", some "me", some "left the chat", some "public", some "", none⟩ = []) :=
  ⟨claim_C6_self_filter.1 ⟨"me", "public", "", ⟨[], []⟩, true, true, true⟩
    ⟨some "system", some "me", some "me", some "left the chat", some "public", some "", none⟩ 0 rfl,
   claim_C6_self_filter.2 ⟨"me", "public", "", true, true, true⟩
    ⟨some "system", some "me", some "me", some "left the chat", some "public", some "", none⟩ rfl⟩

/-- C10: stopping a non-running transport is a complete no-op (no
envelope sent, no state change), and starting an already-running
transport is a complete no-op (no bind, no state change) — for both the
broadcast and the relay transport. -/
theorem claim_C10_lifecycle_noop :
    (∀ (s : PeerLife) (announce : Bool), s.running = false →
      bpStop s announce = ⟨false, 0, [], s⟩) ∧
    (∀ (s : PeerLife) (announce : Bool), s.running = false →
      rpStop s announce = ⟨false, 0, [], s⟩) ∧
    (∀ (s : PeerLife) (name : String) (port : Int) (room code : String)
        (bindOk : Bool), s.running = true →
      bpStart s name port room code bindOk = ⟨false, 0, [], s⟩) ∧
    (∀ (s : PeerLife) (name : String) (port : Int) (room code : String)
        (connectOk : Bool), s.running = true →
      rpStart s name port room code connectOk = ⟨false, 0, [], s⟩) := by
  refine ⟨?_, ?_, ?_, ?_⟩
  · intro s announce h
    simp [bpStop, h]
  · intro s announce h
    simp [rpStop, h]
  · intro s name port room code bindOk h
    simp [bpStart, h]
  · intro s name port room code connectOk h
    simp [rpStart, h]

/-- C10 witness: the four no-op cases at a concrete lifecycle state. -/
theorem claim_C10_witness :
    (bpStop ⟨false, false, "n", 1, "public", ""⟩ true =
      ⟨false, 0, [], ⟨false, false, "n", 1, "public", ""⟩⟩) ∧
    (rpStop ⟨false, false, "n", 1, "public", ""⟩ true =
      ⟨false, 0, [], ⟨false, false, "n", 1, "public", ""⟩⟩) ∧
    (bpStart ⟨true, true, "n", 1, "public", ""⟩ "m" 2 "r" "c" true =
      ⟨false, 0, [], ⟨true, true, "n", 1, "public", ""⟩⟩) ∧
    (rpStart ⟨true, true, "n", 1, "public", ""⟩ "m" 2 "r" "c" true =
      ⟨false, 0, [], ⟨true, true, "n", 1, "public", ""⟩⟩) :=
  ⟨claim_C10_lifecycle_noop.1 ⟨false, false, "n", 1, "public", ""⟩ true rfl,
   claim_C10_lifecycle_noop.2.1 ⟨false, false, "n", 1, "public", ""⟩ true rfl,
   claim_C10_lifecycle_noop.2.2.1 ⟨true, true, "n", 1, "public", ""⟩ "m" 2 "r" "c" true rfl,
   claim_C10_lifecycle_noop.2.2.2 ⟨true, true, "n", 1, "public", ""⟩ "m" 2 "r" "c" true rfl⟩

/-- C9 (amended): the broadcast transport's `start` surfaces an invalid
port or a bind failure as a raised error, attempting the bind at most
once and leaving the transport not running with no socket; the
discovery service's `start`, by contrast, swallows socket-creation and
bind failures and returns silently (nothing is raised), likewise ending
not running with no socket retained. -/
theorem claim_C9_start_failures :
    (∀ (s : PeerLife) (name : String) (port : Int) (room code : String)
        (bindOk : Bool), s.running = false → s.sockOpen = false →
      ¬(1 ≤ port ∧ port ≤ 65535) →
      (bpStart s name port room code bindOk).raised = true ∧
      (bpStart s name port room code bindOk).bindAttempts = 0 ∧
      (bpStart s name port room code bindOk).sent = [] ∧
      (bpStart s name port room code bindOk).st.running = false ∧
      (bpStart s name port room code bindOk).st.sockOpen = false) ∧
    (∀ (s : PeerLife) (name : String) (port : Int) (room code : String),
      s.running = false → s.sockOpen = false → 1 ≤ port → port ≤ 65535 →
      (bpStart s name port room code false).raised = true ∧
      (bpStart s name port room code false).bindAttempts = 1 ∧
      (bpStart s name port room code false).sent = [] ∧
      (bpStart s name port room code false).st.running = false ∧
      (bpStart s name port room code false).st.sockOpen = false) ∧
    (∀ (s : DSLife) (sockOk bindOk : Bool), s.running = false →
      sockOk = false ∨ bindOk = false →
      dsStart s sockOk bindOk = ⟨false, s⟩) := by
  refine ⟨?_, ?_, ?_⟩
  · intro s name port room code bindOk hr hs hport
    unfold bpStart
    rw [hr, if_neg (by decide : ¬(false = true)), if_pos hport]
    simp [hs]
  · intro s name port room code hr hs h1 h2
    unfold bpStart
    rw [hr, if_neg (by decide : ¬(false = true)),
      if_neg (not_not_intro (And.intro h1 h2)),
      if_neg (by decide : ¬(false = true))]
    simp [hs]
  · intro s sockOk bindOk hr h
    rcases h with h | h <;> simp [dsStart, hr, h]

/-- C9 counterexample: a bind failure in `DiscoveryService.start` is not
surfaced to the caller — the call returns silently with nothing raised,
contradicting the claim that it raises like the broadcast transport. -/
theorem claim_C9_counterexample :
    dsStart ⟨false, false⟩ true false = ⟨false, ⟨false, false⟩⟩ ∧
    (bpStart ⟨false, false, "", 0, "public", ""⟩ "n" 5000 "public" "" false).raised = true := by
  exact ⟨rfl, rfl⟩

/-- C9 witness: the amended behaviour at concrete inputs (invalid port
70000, failing bind on port 5000, failing discovery bind). -/
theorem claim_C9_witness :
    ((bpStart ⟨false, false, "", 0, "public", ""⟩ "n" 70000 "public" "" true).raised = true) ∧
    ((bpStart ⟨false, false, "", 0, "public", ""⟩ "n" 5000 "public" "" false).st.running = false) ∧
    (dsStart ⟨false, false⟩ false true = ⟨false, ⟨false, false⟩⟩) :=
  ⟨(claim_C9_start_failures.1 ⟨false, false, "", 0, "public", ""⟩ "n" 70000 "public" "" true
      rfl rfl (by decide)).1,
   (claim_C9_start_failures.2.1 ⟨false, false, "", 0, "public", ""⟩ "n" 5000 "public" ""
      rfl rfl (by decide) (by decide)).2.2.2.1,
   claim_C9_start_failures.2.2 ⟨false, false⟩ false true rfl (Or.inl rfl)⟩

/-- The send loop delivers to exactly the non-sender clients whose write
succeeds, in order, and collects exactly the failing non-sender clients
as dead, in order. -/
theorem rsSendPass_eq (sender : Nat) (frame : List Nat) (l : List RClient) :
    rsSendPass sender frame l =
      ((l.filter (fun c => c.cid != sender && c.sendOk)).map (fun c => (c.cid, frame)),
       l.filter (fun c => c.cid != sender && !c.sendOk)) := by
  induction l with
  | nil => simp [rsSendPass]
  | cons c rest ih =>
    by_cases hs : c.cid = sender
    · simp [rsSendPass, hs, ih]
    · by_cases hok : c.sendOk
      · simp [rsSendPass, hs, hok, ih]
      · simp [rsSendPass, hs, hok, ih]

theorem removeFirst_eq_filter {d : RClient} {cs : List RClient} (h : cs.Nodup) :
    removeFirst d cs = cs.filter (fun c => c != d) := by
  induction cs with
  | nil => simp [removeFirst]
  | cons c rest ih =>
    rcases List.nodup_cons.1 h with ⟨hni, hnd⟩
    by_cases hc : c = d
    · subst hc
      simp only [removeFirst, if_pos rfl, List.filter_cons]
      simp only [bne_self_eq_false, Bool.false_eq_true, if_neg]
      exact (List.filter_eq_self.2 (fun a ha => by
        simp only [bne_iff_ne, ne_eq, decide_eq_true_eq]
        exact fun had => hni (had ▸ ha))).symm
    · simp [removeFirst, hc, ih hnd, Ne.symm hc]

theorem removeDead_eq_filter (ds : List RClient) :
    ∀ (cs : List RClient), cs.Nodup →
    ds.foldl (fun cs d => if d ∈ cs then removeFirst d cs else cs) cs =
      cs.filter (fun c => decide (c ∉ ds)) := by
  induction ds with
  | nil => intro cs h; simp
  | cons d ds ih =>
    intro cs h
    simp only [List.foldl_cons]
    by_cases hmem : d ∈ cs
    · rw [if_pos hmem, removeFirst_eq_filter h,
        ih _ ((List.filter_sublist _).nodup h)]
      rw [List.filter_filter]
      refine List.filter_congr (fun c hc => ?_)
      simp only [List.mem_cons, not_or, decide_eq_true_eq, Bool.and_comm]
      simp [bne_iff_ne]
      tauto
    · rw [if_neg hmem, ih _ h]
      refine List.filter_congr (fun c hc => ?_)
      have : c ≠ d := fun hcd => hmem (hcd ▸ hc)
      simp [this]

/-- C7: the relay server fan-out.  With distinct live sockets, a frame
received from `sender` is retransmitted verbatim (4-byte header plus
payload) to exactly the other live clients whose write succeeds, in
order; it never goes back to the sender; every failing client is closed
and removed from the live set; and clients whose write succeeds receive
the frame regardless of failures to others in the same pass. -/
theorem claim_C7_relay_fanout (clients : List RClient) (sender : Nat)
    (header payload : List Nat) (hnodup : (clients.map RClient.cid).Nodup) :
    ((rsHandleFrame clients sender header payload).1 =
      (clients.filter (fun c => c.cid != sender && c.sendOk)).map
        (fun c => (c.cid, header ++ payload))) ∧
    (∀ d ∈ (rsHandleFrame clients sender header payload).1, d.1 ≠ sender) ∧
    ((rsHandleFrame clients sender header payload).2.1 =
      (clients.filter (fun c => c.cid != sender && !c.sendOk)).map RClient.cid) ∧
    ((rsHandleFrame clients sender header payload).2.2 =
      clients.filter (fun c => c.cid == sender || c.sendOk)) ∧
    (∀ c ∈ clients, c.cid ≠ sender → c.sendOk →
      (c.cid, header ++ payload) ∈ (rsHandleFrame clients sender header payload).1) := by
  have hpass := rsSendPass_eq sender (header ++ payload) clients
  have hnd : clients.Nodup := hnodup.of_map
  refine ⟨?_, ?_, ?_, ?_, ?_⟩
  · simp [rsHandleFrame, rsBroadcast, hpass]
  · intro d hd
    simp only [rsHandleFrame, rsBroadcast, hpass, List.mem_map] at hd
    rcases hd with ⟨c, hc, hcd⟩
    have := List.of_mem_filter hc
    simp only [Bool.and_eq_true, bne_iff_ne, ne_eq] at this
    rw [← hcd]
    exact this.1
  · simp [rsHandleFrame, rsBroadcast, hpass]
  · simp only [rsHandleFrame, rsBroadcast, hpass]
    rw [removeDead_eq_filter _ _ hnd]
    refine List.filter_congr (fun c hc => ?_)
    simp only [List.mem_filter, decide_eq_true_eq, not_and, Bool.and_eq_true,
      bne_iff_ne, ne_eq, Bool.not_eq_true, Bool.or_eq_true, beq_iff_eq]
    by_cases h1 : c.cid = sender
    · simp [h1, hc]
    · by_cases h2 : c.sendOk
      · simp [h1, h2, hc]
      · simp [h1, h2, hc]
  · intro c hc hcs hok
    simp only [rsHandleFrame, rsBroadcast, hpass, List.mem_map]
    exact ⟨c, List.mem_filter.2 ⟨hc, by simp [hcs, hok]⟩, rfl⟩

/-- C7 witness: three clients, X (id 0) sends, the write to Y (id 1)
fails, Z (id 2) still receives the identical frame; Y is closed and
removed, X and Z stay. -/
theorem claim_C7_witness :
    (rsHandleFrame [⟨0, true⟩, ⟨1, false⟩, ⟨2, true⟩] 0 [0, 0, 0, 2] [104, 105]).1 =
      [(2, [0, 0, 0, 2, 104, 105])] ∧
    (rsHandleFrame [⟨0, true⟩, ⟨1, false⟩, ⟨2, true⟩] 0 [0, 0, 0, 2] [104, 105]).2.1 = [1] ∧
    (rsHandleFrame [⟨0, true⟩, ⟨1, false⟩, ⟨2, true⟩] 0 [0, 0, 0, 2] [104, 105]).2.2 =
      [⟨0, true⟩, ⟨2, true⟩] :=
  ⟨((claim_C7_relay_fanout [⟨0, true⟩, ⟨1, false⟩, ⟨2, true⟩] 0 [0, 0, 0, 2] [104, 105]
      (by decide)).1).trans (by decide),
   ((claim_C7_relay_fanout [⟨0, true⟩, ⟨1, false⟩, ⟨2, true⟩] 0 [0, 0, 0, 2] [104, 105]
      (by decide)).2.2.1).trans (by decide),
   ((claim_C7_relay_fanout [⟨0, true⟩, ⟨1, false⟩, ⟨2, true⟩] 0 [0, 0, 0, 2] [104, 105]
      (by decide)).2.2.2.1).trans (by decide)⟩

/-- C1: the flood controller on a fresh session, message callback
installed.  Six chat messages from one sender inside a 3-second window:
the first five are accepted, the sixth is rejected and emits the single
synthetic mute notice; a seventh 1 second later is rejected with no
second notice; a message 11 seconds after the sixth (mute expired,
window stale) is accepted. -/
theorem claim_C1_flood_control (pid name : String) (t1 t2 t3 t4 t5 t6 : ℚ)
    (h0 : 0 ≤ t1) (h12 : t1 ≤ t2) (h23 : t2 ≤ t3) (h34 : t3 ≤ t4)
    (h45 : t4 ≤ t5) (h56 : t5 ≤ t6) (hwin : t6 ≤ t1 + 3) :
    (runFlood true ⟨[], []⟩
      [(pid, name, t1), (pid, name, t2), (pid, name, t3), (pid, name, t4),
       (pid, name, t5), (pid, name, t6), (pid, name, t6 + 1), (pid, name, t6 + 11)]).1 =
      [(false, none), (false, none), (false, none), (false, none), (false, none),
       (true, some ("* Flood control: muting " ++ name ++ " for 10s")), (true, none),
       (false, none)] := by
  have e1 : isFlooding ⟨[], []⟩ pid name t1 true =
      (false, none, ⟨[(pid, [t1])], []⟩) := by
    simp only [isFlooding, dget, dinsert, eq_self_iff_true, if_true,
      Option.getD_none, List.dropWhile_nil]
    rw [if_neg (not_lt.2 h0)]
    norm_num
  have e2 : isFlooding ⟨[(pid, [t1])], []⟩ pid name t2 true =
      (false, none, ⟨[(pid, [t1, t2])], []⟩) := by
    simp only [isFlooding, dget, dinsert, eq_self_iff_true, if_true, Option.getD_some,
      Option.getD_none, List.dropWhile_cons, List.dropWhile_nil]
    rw [if_neg (not_lt.2 (by linarith : (0:ℚ) ≤ t2)),
      decide_eq_false (by linarith : ¬ (3:ℚ) < t2 - t1)]
    norm_num
  have e3 : isFlooding ⟨[(pid, [t1, t2])], []⟩ pid name t3 true =
      (false, none, ⟨[(pid, [t1, t2, t3])], []⟩) := by
    simp only [isFlooding, dget, dinsert, eq_self_iff_true, if_true, Option.getD_some,
      Option.getD_none, List.dropWhile_cons, List.dropWhile_nil]
    rw [if_neg (not_lt.2 (by linarith : (0:ℚ) ≤ t3)),
      decide_eq_false (by linarith : ¬ (3:ℚ) < t3 - t1)]
    norm_num
  have e4 : isFlooding ⟨[(pid, [t1, t2, t3])], []⟩ pid name t4 true =
      (false, none, ⟨[(pid, [t1, t2, t3, t4])], []⟩) := by
    simp only [isFlooding, dget, dinsert, eq_self_iff_true, if_true, Option.getD_some,
      Option.getD_none, List.dropWhile_cons, List.dropWhile_nil]
    rw [if_neg (not_lt.2 (by linarith : (0:ℚ) ≤ t4)),
      decide_eq_false (by linarith : ¬ (3:ℚ) < t4 - t1)]
    norm_num
  have e5 : isFlooding ⟨[(pid, [t1, t2, t3, t4])], []⟩ pid name t5 true =
      (false, none, ⟨[(pid, [t1, t2, t3, t4, t5])], []⟩) := by
    simp only [isFlooding, dget, dinsert, eq_self_iff_true, if_true, Option.getD_some,
      Option.getD_none, List.dropWhile_cons, List.dropWhile_nil]
    rw [if_neg (not_lt.2 (by linarith : (0:ℚ) ≤ t5)),
      decide_eq_false (by linarith : ¬ (3:ℚ) < t5 - t1)]
    norm_num
  have e6 : isFlooding ⟨[(pid, [t1, t2, t3, t4, t5])], []⟩ pid name t6 true =
      (true, some ("* Flood control: muting " ++ name ++ " for 10s"),
       ⟨[(pid, [t1, t2, t3, t4, t5, t6])], [(pid, t6 + 10)]⟩) := by
    simp only [isFlooding, dget, dinsert, eq_self_iff_true, if_true, Option.getD_some,
      Option.getD_none, List.dropWhile_cons, List.dropWhile_nil]
    rw [if_neg (not_lt.2 (by linarith : (0:ℚ) ≤ t6)),
      decide_eq_false (by linarith : ¬ (3:ℚ) < t6 - t1)]
    norm_num
  have e7 : isFlooding ⟨[(pid, [t1, t2, t3, t4, t5, t6])], [(pid, t6 + 10)]⟩
      pid name (t6 + 1) true =
      (true, none, ⟨[(pid, [t1, t2, t3, t4, t5, t6])], [(pid, t6 + 10)]⟩) := by
    simp only [isFlooding, dget, eq_self_iff_true, if_true, Option.getD_some]
    rw [if_pos (by linarith : t6 + 1 < t6 + 10)]
  have e8 : isFlooding ⟨[(pid, [t1, t2, t3, t4, t5, t6])], [(pid, t6 + 10)]⟩
      pid name (t6 + 11) true =
      (false, none, ⟨[(pid, [t6 + 11])], [(pid, t6 + 10)]⟩) := by
    simp only [isFlooding, dget, dinsert, eq_self_iff_true, if_true, Option.getD_some,
      List.dropWhile_cons, List.dropWhile_nil]
    rw [if_neg (not_lt.2 (by linarith : t6 + 10 ≤ t6 + 11)),
      decide_eq_true (by linarith : (3:ℚ) < t6 + 11 - t1),
      decide_eq_true (by linarith : (3:ℚ) < t6 + 11 - t2),
      decide_eq_true (by linarith : (3:ℚ) < t6 + 11 - t3),
      decide_eq_true (by linarith : (3:ℚ) < t6 + 11 - t4),
      decide_eq_true (by linarith : (3:ℚ) < t6 + 11 - t5),
      decide_eq_true (by linarith : (3:ℚ) < t6 + 11 - t6)]
    norm_num
  simp only [runFlood, e1, e2, e3, e4, e5, e6, e7, e8]

/-- C1 witness: the flood scenario at the concrete arrival times
0, 0.5, 1, 1.5, 2, 2.5 seconds (then 3.5 and 13.5). -/
theorem claim_C1_witness :
    (runFlood true ⟨[], []⟩
      [("p", "bob", 0), ("p", "bob", 1/2), ("p", "bob", 1), ("p", "bob", 3/2),
       ("p", "bob", 2), ("p", "bob", 5/2), ("p", "bob", 5/2 + 1), ("p", "bob", 5/2 + 11)]).1 =
      [(false, none), (false, none), (false, none), (false, none), (false, none),
       (true, some ("* Flood control: muting " ++ "bob" ++ " for 10s")), (true, none),
       (false, none)] :=
  claim_C1_flood_control "p" "bob" 0 (1/2) 1 (3/2) 2 (5/2)
    (by norm_num) (by norm_num) (by norm_num) (by norm_num) (by norm_num)
    (by norm_num) (by norm_num)

theorem b64val_b64byte : ∀ n, n < 64 → b64val (b64byte n) = some n := by decide

theorem b64byte_ne_pad : ∀ n, n < 64 → b64byte n ≠ 61 := by decide

theorem b64_roundtrip : ∀ bs : List Nat, (∀ b ∈ bs, b < 256) →
    b64decode (b64encode bs) = some bs
  | [] => fun _ => by simp [b64encode, b64decode]
  | [a] => fun h => by
    have ha : a < 256 := h a (by simp)
    have e : a / 4 * 4 + a % 4 * 16 / 16 = a := by omega
    simp [b64encode, b64decode,
      b64val_b64byte (a / 4) (by omega),
      b64val_b64byte (a % 4 * 16) (by omega), e]
    all_goals omega
  | [a, b] => fun h => by
    have ha : a < 256 := h a (by simp)
    have hb : b < 256 := h b (by simp)
    have e1 : a / 4 * 4 + (a % 4 * 16 + b / 16) / 16 = a := by omega
    have e2 : (a % 4 * 16 + b / 16) % 16 * 16 + b % 16 * 4 / 4 = b := by omega
    simp [b64encode, b64decode,
      b64val_b64byte (a / 4) (by omega),
      b64val_b64byte (a % 4 * 16 + b / 16) (by omega),
      b64val_b64byte (b % 16 * 4) (by omega),
      b64byte_ne_pad (b % 16 * 4) (by omega), e1, e2]
    all_goals omega
  | a :: b :: c :: rest => fun h => by
    have ha : a < 256 := h a (by simp)
    have hb : b < 256 := h b (by simp)
    have hc : c < 256 := h c (by simp)
    have ih := b64_roundtrip rest (fun x hx => h x (by simp [hx]))
    have e1 : a / 4 * 4 + (a % 4 * 16 + b / 16) / 16 = a := by omega
    have e2 : (a % 4 * 16 + b / 16) % 16 * 16 + (b % 16 * 4 + c / 64) / 4 = b := by omega
    have e3 : (b % 16 * 4 + c / 64) % 4 * 64 + c % 64 = c := by omega
    simp [b64encode, b64decode,
      b64val_b64byte (a / 4) (by omega),
      b64val_b64byte (a % 4 * 16 + b / 16) (by omega),
      b64val_b64byte (b % 16 * 4 + c / 64) (by omega),
      b64val_b64byte (c % 64) (by omega),
      b64byte_ne_pad (b % 16 * 4 + c / 64) (by omega),
      b64byte_ne_pad (c % 64) (by omega), ih, e1, e2, e3]

theorem char_toNat_lt (c : Char) : c.toNat < 1114112 := by
  rcases c.valid with h | h
  · exact Nat.lt_trans h (by norm_num)
  · exact h.2

theorem utf8EncodeChar_lt (c : Char) : ∀ b ∈ utf8EncodeChar c, b < 256 := by
  intro b hb
  have hv := char_toNat_lt c
  simp only [utf8EncodeChar] at hb
  split_ifs at hb <;> simp at hb <;> omega

theorem utf8Encode_lt (cs : List Char) : ∀ b ∈ utf8Encode cs, b < 256 := by
  induction cs with
  | nil => simp [utf8Encode]
  | cons c cs ih =>
    intro b hb
    simp only [utf8Encode, List.mem_append] at hb
    rcases hb with hb | hb
    · exact utf8EncodeChar_lt c b hb
    · exact ih b hb

theorem utf8Encode_length (cs : List Char) : cs.length ≤ (utf8Encode cs).length := by
  induction cs with
  | nil => simp [utf8Encode]
  | cons c cs ih =>
    have h1 : 1 ≤ (utf8EncodeChar c).length := by
      simp only [utf8EncodeChar]
      split_ifs <;> simp
    simp only [utf8Encode, List.length_append, List.length_cons]
    omega

theorem utf8_loop_roundtrip (cs : List Char) :
    ∀ fuel, cs.length < fuel →
    utf8DecodeLoop fuel (utf8Encode cs) = some cs := by
  induction cs with
  | nil =>
    intro fuel hf
    match fuel, hf with
    | f + 1, _ => rfl
  | cons c cs ih =>
    intro fuel hf
    match fuel, hf with
    | f + 1, hf =>
      have hv := char_toNat_lt c
      have hrec := ih f (by simpa using Nat.lt_of_succ_lt_succ hf)
      by_cases h1 : c.toNat < 128
      · simp only [utf8Encode, utf8EncodeChar, if_pos h1, List.cons_append, List.nil_append,
          utf8DecodeLoop]
        rw [hrec, Option.map_some', Char.ofNat_toNat]
      · by_cases h2 : c.toNat < 2048
        · simp only [utf8Encode, utf8EncodeChar, if_neg h1, if_pos h2, List.cons_append,
            List.nil_append, utf8DecodeLoop]
          rw [if_neg (by omega), if_neg (by omega), if_pos (by omega)]
          simp only [readCont1,
            if_pos (by constructor <;> omega :
              128 ≤ 128 + c.toNat % 64 ∧ 128 + c.toNat % 64 < 192)]
          rw [hrec, Option.map_some',
            show (192 + c.toNat / 64 - 192) * 64 + (128 + c.toNat % 64 - 128) = c.toNat from by
              omega,
            Char.ofNat_toNat]
        · by_cases h3 : c.toNat < 65536
          · simp only [utf8Encode, utf8EncodeChar, if_neg h1, if_neg h2, if_pos h3,
              List.cons_append, List.nil_append, utf8DecodeLoop]
            rw [if_neg (by omega), if_neg (by omega), if_neg (by omega), if_pos (by omega)]
            simp only [readCont2,
              if_pos (by refine ⟨⟨?_, ?_⟩, ?_, ?_⟩ <;> omega :
                (128 ≤ 128 + c.toNat / 64 % 64 ∧ 128 + c.toNat / 64 % 64 < 192) ∧
                  128 ≤ 128 + c.toNat % 64 ∧ 128 + c.toNat % 64 < 192)]
            rw [hrec, Option.map_some',
              show (224 + c.toNat / 4096 - 224) * 4096 +
                  ((128 + c.toNat / 64 % 64 - 128) * 64 + (128 + c.toNat % 64 - 128)) =
                    c.toNat from by omega,
              Char.ofNat_toNat]
          · simp only [utf8Encode, utf8EncodeChar, if_neg h1, if_neg h2, if_neg h3,
              List.cons_append, List.nil_append, utf8DecodeLoop]
            rw [if_neg (by omega), if_neg (by omega), if_neg (by omega), if_neg (by omega),
              if_pos (by omega)]
            simp only [readCont3,
              if_pos (by refine ⟨⟨?_, ?_⟩, ⟨?_, ?_⟩, ?_, ?_⟩ <;> omega :
                (128 ≤ 128 + c.toNat / 4096 % 64 ∧ 128 + c.toNat / 4096 % 64 < 192) ∧
                  (128 ≤ 128 + c.toNat / 64 % 64 ∧ 128 + c.toNat / 64 % 64 < 192) ∧
                    128 ≤ 128 + c.toNat % 64 ∧ 128 + c.toNat % 64 < 192)]
            rw [hrec, Option.map_some',
              show (240 + c.toNat / 262144 - 240) * 262144 +
                  ((128 + c.toNat / 4096 % 64 - 128) * 4096 +
                    (128 + c.toNat / 64 % 64 - 128) * 64 + (128 + c.toNat % 64 - 128)) =
                    c.toNat from by omega,
              Char.ofNat_toNat]

theorem utf8_roundtrip (cs : List Char) : utf8Decode (utf8Encode cs) = some cs := by
  have := utf8Encode_length cs
  exact utf8_loop_roundtrip cs ((utf8Encode cs).length + 1) (by omega)

theorem natChars_acc : ∀ (fuel n : Nat) (acc : List Char),
    natChars fuel n acc = natChars fuel n [] ++ acc
  | 0, _, _ => by simp [natChars]
  | fuel + 1, n, acc => by
    by_cases h : n < 10
    · simp [natChars, h]
    · simp only [natChars, if_neg h]
      rw [natChars_acc fuel (n / 10) (Char.ofNat (48 + n % 10) :: acc),
        natChars_acc fuel (n / 10) [Char.ofNat (48 + n % 10)]]
      simp

theorem digitChar_isDigit : ∀ m, m < 10 → (Char.ofNat (48 + m)).isDigit = true := by decide

theorem digitChar_toNat : ∀ m, m < 10 → (Char.ofNat (48 + m)).toNat = 48 + m := by decide

theorem natChars_digits : ∀ (fuel n : Nat), n < fuel →
    ∀ c ∈ natChars fuel n [], c.isDigit = true
  | 0, n, h => by omega
  | fuel + 1, n, h => by
    intro c hc
    by_cases h10 : n < 10
    · simp only [natChars, if_pos h10, List.mem_singleton] at hc
      exact hc ▸ digitChar_isDigit (n % 10) (by omega)
    · simp only [natChars, if_neg h10] at hc
      rw [natChars_acc] at hc
      rcases List.mem_append.1 hc with hc | hc
      · exact natChars_digits fuel (n / 10) (by omega) c hc
      · simp only [List.mem_singleton] at hc
        exact hc ▸ digitChar_isDigit (n % 10) (by omega)

theorem natChars_ne_nil : ∀ (fuel n : Nat), n < fuel → natChars fuel n [] ≠ []
  | 0, n, h => by omega
  | fuel + 1, n, h => by
    by_cases h10 : n < 10
    · simp [natChars, h10]
    · simp only [natChars, if_neg h10]
      rw [natChars_acc]
      simp

theorem digitsToNat_natChars : ∀ (fuel n : Nat), n < fuel →
    digitsToNat (natChars fuel n []) = n
  | 0, n, h => by omega
  | fuel + 1, n, h => by
    by_cases h10 : n < 10
    · simp only [natChars, if_pos h10, digitsToNat, List.foldl_cons, List.foldl_nil]
      rw [digitChar_toNat (n % 10) (by omega)]
      omega
    · simp only [natChars, if_neg h10]
      rw [natChars_acc]
      simp only [digitsToNat, List.foldl_append, List.foldl_cons, List.foldl_nil]
      have ih := digitsToNat_natChars fuel (n / 10) (by omega)
      simp only [digitsToNat] at ih
      rw [ih, digitChar_toNat (n % 10) (by omega)]
      omega

theorem takeWhile_append_all {p : Char → Bool} : ∀ {xs ys : List Char},
    (∀ x ∈ xs, p x = true) → (xs ++ ys).takeWhile p = xs ++ ys.takeWhile p := by
  intro xs
  induction xs with
  | nil => simp
  | cons x xs ih =>
    intro ys h
    simp only [List.cons_append, List.takeWhile_cons, h x (by simp)]
    simp [ih (fun a ha => h a (by simp [ha]))]

theorem dropWhile_append_all {p : Char → Bool} : ∀ {xs ys : List Char},
    (∀ x ∈ xs, p x = true) → (xs ++ ys).dropWhile p = ys.dropWhile p := by
  intro xs
  induction xs with
  | nil => simp
  | cons x xs ih =>
    intro ys h
    simp only [List.cons_append, List.dropWhile_cons, h x (by simp)]
    exact ih (fun a ha => h a (by simp [ha]))

theorem takeWhile_isDigit_restOk : ∀ {ys : List Char}, RestOk ys →
    ys.takeWhile Char.isDigit = [] := by
  intro ys h
  cases ys with
  | nil => rfl
  | cons c t =>
    simp only [RestOk] at h
    simp [List.takeWhile_cons, h]

theorem dropWhile_isDigit_restOk : ∀ {ys : List Char}, RestOk ys →
    ys.dropWhile Char.isDigit = ys := by
  intro ys h
  cases ys with
  | nil => rfl
  | cons c t =>
    simp only [RestOk] at h
    simp [List.dropWhile_cons, h]

theorem parseNat_natStr {n : Nat} {rest : List Char} (hr : RestOk rest) :
    parseNat ((natStr n).data ++ rest) = some (n, rest) := by
  have hd : ∀ c ∈ (natStr n).data, Char.isDigit c = true :=
    natChars_digits (n + 1) n (by omega)
  have hne : (natStr n).data ≠ [] := natChars_ne_nil (n + 1) n (by omega)
  simp only [parseNat, takeWhile_append_all hd, dropWhile_append_all hd,
    takeWhile_isDigit_restOk hr, dropWhile_isDigit_restOk hr, List.append_nil]
  cases he : (natStr n).data with
  | nil => exact absurd he hne
  | cons c t =>
    have hv : digitsToNat (c :: t) = n := by
      rw [← he]
      exact digitsToNat_natChars (n + 1) n (by omega)
    rw [hv]

theorem escChar_len (ascii : Bool) (c : Char) : 1 ≤ (escChar ascii c).length := by
  unfold escChar
  repeat' split
  all_goals simp [hex4]

theorem escChars_len (ascii : Bool) : ∀ xs : List Char, xs.length ≤ (escChars ascii xs).length
  | [] => by simp [escChars]
  | x :: xs => by
    have h1 := escChar_len ascii x
    have h2 := escChars_len ascii xs
    simp only [escChars, List.length_append, List.length_cons]
    omega

theorem hexVal_hexDigitChar : ∀ m, m < 16 → hexVal (hexDigitChar m) = some m := by decide

theorem parseHex4_hex4 (v : Nat) (hv : v < 65536) (rest : List Char) :
    parseHex4 (hex4 v ++ rest) = some (v, rest) := by
  simp only [hex4, List.cons_append, List.nil_append, parseHex4]
  rw [hexVal_hexDigitChar _ (by omega), hexVal_hexDigitChar _ (by omega),
    hexVal_hexDigitChar _ (by omega), hexVal_hexDigitChar _ (by omega)]
  simp only []
  congr 1
  rw [Prod.mk.injEq]
  constructor
  · omega
  · rfl

theorem char_not_surrogate (c : Char) :
    c.toNat < 55296 ∨ (57343 < c.toNat ∧ c.toNat < 1114112) := c.valid

theorem parseStrChars_u (f : Nat) (v : Nat) (tail : List Char) (hv : v < 65536)
    (hs1 : ¬(55296 ≤ v ∧ v < 56320)) (hs2 : ¬(56320 ≤ v ∧ v < 57344)) :
    parseStrChars (f + 1) ('\\' :: 'u' :: (hex4 v ++ tail)) =
      (parseStrChars f tail).map (fun p => (Char.ofNat v :: p.1, p.2)) := by
  show (match parseHex4 (hex4 v ++ tail) with
    | some (w, r2) =>
      if 55296 ≤ w ∧ w < 56320 then
        match r2 with
        | b1 :: b2 :: r3 =>
          if b1 = '\\' ∧ b2 = 'u' then
            match parseHex4 r3 with
            | some (w2, r4) =>
              if 56320 ≤ w2 ∧ w2 < 57344 then
                (parseStrChars f r4).map (fun p : List Char × List Char =>
                  (Char.ofNat (65536 + (w - 55296) * 1024 + (w2 - 56320)) :: p.1, p.2))
              else none
            | none => none
          else none
        | _ => none
      else if 56320 ≤ w ∧ w < 57344 then none
      else (parseStrChars f r2).map (fun p : List Char × List Char => (Char.ofNat w :: p.1, p.2))
    | none => none) = _
  rw [parseHex4_hex4 v hv tail]
  simp only []
  rw [if_neg hs1, if_neg hs2]

theorem parseStrChars_u2 (f : Nat) (v w : Nat) (tail : List Char)
    (hv1 : 55296 ≤ v) (hv2 : v < 56320) (hw1 : 56320 ≤ w) (hw2 : w < 57344) :
    parseStrChars (f + 1) ('\\' :: 'u' :: (hex4 v ++ ('\\' :: 'u' :: (hex4 w ++ tail)))) =
      (parseStrChars f tail).map (fun p =>
        (Char.ofNat (65536 + (v - 55296) * 1024 + (w - 56320)) :: p.1, p.2)) := by
  show (match parseHex4 (hex4 v ++ ('\\' :: 'u' :: (hex4 w ++ tail))) with
    | some (w0, r2) =>
      if 55296 ≤ w0 ∧ w0 < 56320 then
        match r2 with
        | b1 :: b2 :: r3 =>
          if b1 = '\\' ∧ b2 = 'u' then
            match parseHex4 r3 with
            | some (w2, r4) =>
              if 56320 ≤ w2 ∧ w2 < 57344 then
                (parseStrChars f r4).map (fun p : List Char × List Char =>
                  (Char.ofNat (65536 + (w0 - 55296) * 1024 + (w2 - 56320)) :: p.1, p.2))
              else none
            | none => none
          else none
        | _ => none
      else if 56320 ≤ w0 ∧ w0 < 57344 then none
      else (parseStrChars f r2).map (fun p : List Char × List Char => (Char.ofNat w0 :: p.1, p.2))
    | none => none) = _
  rw [parseHex4_hex4 v (by omega) ('\\' :: 'u' :: (hex4 w ++ tail))]
  simp only []
  rw [if_pos ⟨hv1, hv2⟩]
  rw [if_pos (⟨trivial, trivial⟩ : True ∧ True),
    parseHex4_hex4 w (by omega) tail]
  simp only []
  rw [if_pos ⟨hw1, hw2⟩]

theorem parseStrChars_escChar (ascii : Bool) (x : Char) (f : Nat) (tail : List Char) :
    parseStrChars (f + 1) (escChar ascii x ++ tail) =
      (parseStrChars f tail).map (fun p => (x :: p.1, p.2)) := by
  by_cases h1 : x = '"'
  · subst h1; rfl
  by_cases h2 : x = '\\'
  · subst h2; rfl
  by_cases h3 : x = '\n'
  · subst h3; rfl
  by_cases h4 : x = '\t'
  · subst h4; rfl
  by_cases h5 : x = '\r'
  · subst h5; rfl
  by_cases h6 : x = Char.ofNat 8
  · subst h6; rfl
  by_cases h7 : x = Char.ofNat 12
  · subst h7; rfl
  by_cases h8 : x.toNat < 32
  · have hx8 : escChar ascii x = '\\' :: 'u' :: hex4 x.toNat := by
      unfold escChar
      rw [if_neg h1, if_neg h2, if_neg h3, if_neg h4, if_neg h5, if_neg h6, if_neg h7,
        if_pos h8]
    rw [hx8, List.cons_append, List.cons_append,
      parseStrChars_u f x.toNat tail (by omega) (by omega) (by omega), Char.ofNat_toNat]
  by_cases h9 : ascii ∧ 127 ≤ x.toNat
  · have hval := char_not_surrogate x
    by_cases h10 : x.toNat < 65536
    · have hx9 : escChar ascii x = '\\' :: 'u' :: hex4 x.toNat := by
        unfold escChar
        rw [if_neg h1, if_neg h2, if_neg h3, if_neg h4, if_neg h5, if_neg h6, if_neg h7,
          if_neg h8, if_pos (by simpa using h9), if_pos h10]
      rw [hx9, List.cons_append, List.cons_append,
        parseStrChars_u f x.toNat tail (by omega) (by omega) (by omega), Char.ofNat_toNat]
    · have hlt : x.toNat < 1114112 := by omega
      have hx10 : escChar ascii x ++ tail =
          '\\' :: 'u' :: (hex4 (55296 + (x.toNat - 65536) / 1024) ++
            ('\\' :: 'u' :: (hex4 (56320 + (x.toNat - 65536) % 1024) ++ tail))) := by
        unfold escChar
        rw [if_neg h1, if_neg h2, if_neg h3, if_neg h4, if_neg h5, if_neg h6, if_neg h7,
          if_neg h8, if_pos (by simpa using h9), if_neg h10]
        simp
      rw [hx10, parseStrChars_u2 f (55296 + (x.toNat - 65536) / 1024)
        (56320 + (x.toNat - 65536) % 1024) tail (by omega) (by omega) (by omega) (by omega)]
      rw [show 65536 + (55296 + (x.toNat - 65536) / 1024 - 55296) * 1024 +
          (56320 + (x.toNat - 65536) % 1024 - 56320) = x.toNat from by omega,
        Char.ofNat_toNat]
  · have hx : escChar ascii x = [x] := by
      unfold escChar
      rw [if_neg h1, if_neg h2, if_neg h3, if_neg h4, if_neg h5, if_neg h6, if_neg h7,
        if_neg h8, if_neg (by simpa using h9)]
    rw [hx, List.singleton_append]
    show (if x = '"' then some ([], tail)
      else if x = '\\' then
        (match tail with
        | [] => none
        | e :: r1 =>
          if e = 'u' then
            match parseHex4 r1 with
            | some (v, r2) =>
              if 55296 ≤ v ∧ v < 56320 then
                match r2 with
                | b1 :: b2 :: r3 =>
                  if b1 = '\\' ∧ b2 = 'u' then
                    match parseHex4 r3 with
                    | some (w, r4) =>
                      if 56320 ≤ w ∧ w < 57344 then
                        (parseStrChars f r4).map (fun p : List Char × List Char =>
                          (Char.ofNat (65536 + (v - 55296) * 1024 + (w - 56320)) :: p.1, p.2))
                      else none
                    | none => none
                  else none
                | _ => none
              else if 56320 ≤ v ∧ v < 57344 then none
              else (parseStrChars f r2).map (fun p : List Char × List Char =>
                (Char.ofNat v :: p.1, p.2))
            | none => none
          else
            match escVal e with
            | some ec => (parseStrChars f r1).map (fun p : List Char × List Char =>
              (ec :: p.1, p.2))
            | none => none)
      else if x.toNat < 32 then none
      else (parseStrChars f tail).map (fun p : List Char × List Char => (x :: p.1, p.2))) = _
    rw [if_neg h1, if_neg h2, if_neg h8]

theorem parseStr_escChars (ascii : Bool) : ∀ (xs : List Char) (fuel : Nat) (rest : List Char),
    xs.length < fuel →
    parseStrChars fuel (escChars ascii xs ++ '"' :: rest) = some (xs, rest)
  | [], fuel, rest, h => by
    obtain ⟨f, rfl⟩ : ∃ f, fuel = f + 1 := ⟨fuel - 1, by omega⟩
    show parseStrChars (f + 1) ('"' :: rest) = some ([], rest)
    rfl
  | x :: xs, fuel, rest, h => by
    obtain ⟨f, rfl⟩ : ∃ f, fuel = f + 1 := ⟨fuel - 1, by omega⟩
    have ih := parseStr_escChars ascii xs f rest (by simp at h; omega)
    simp only [escChars, List.append_assoc]
    rw [parseStrChars_escChar ascii x f (escChars ascii xs ++ '"' :: rest), ih]
    rfl

theorem parseStr_escChars_len (ascii : Bool) (xs : List Char) (rest : List Char) :
    parseStrChars ((escChars ascii xs ++ '"' :: rest).length + 1)
      (escChars ascii xs ++ '"' :: rest) = some (xs, rest) := by
  apply parseStr_escChars
  have := escChars_len ascii xs
  simp only [List.length_append, List.length_cons]
  omega

theorem skipWs_cons_false {c : Char} {l : List Char} (h : isWsChar c = false) :
    skipWs (c :: l) = c :: l := by
  simp [skipWs, List.dropWhile_cons, h]

theorem skipWs_space (l : List Char) : skipWs (' ' :: l) = skipWs l := by
  simp [skipWs, List.dropWhile_cons, isWsChar]

theorem isDigit_facts {c : Char} (h : c.isDigit = true) :
    isWsChar c = false ∧ c ≠ 'n' ∧ c ≠ 't' ∧ c ≠ 'f' ∧ c ≠ '"' ∧ c ≠ '[' ∧
      c ≠ '{' ∧ c ≠ '-' ∧ c ≠ ']' ∧ c ≠ '}' ∧ c ≠ ',' ∧ c ≠ ':' := by
  have hne : c ≠ ' ' ∧ c ≠ '\t' ∧ c ≠ '\n' ∧ c ≠ '\r' := by
    refine ⟨?_, ?_, ?_, ?_⟩ <;> (rintro rfl; revert h; decide)
  refine ⟨by simp [isWsChar, hne.1, hne.2.1, hne.2.2.1, hne.2.2.2], ?_, ?_, ?_, ?_, ?_,
    ?_, ?_, ?_, ?_, ?_, ?_⟩ <;> (rintro rfl; revert h; decide)

theorem parseVal_jnull (ascii : Bool) (f : Nat) (rest : List Char) :
    parseVal (f + 1) (dumps ascii .jnull ++ rest) = some (.jnull, rest) := by
  show parseVal (f + 1) ('n' :: 'u' :: 'l' :: 'l' :: rest) = some (.jnull, rest)
  rw [parseVal.eq_def]
  simp only [skipWs_cons_false (by decide : isWsChar 'n' = false)]
  simp [List.take, List.drop]

theorem parseVal_jbool (ascii : Bool) (f : Nat) (b : Bool) (rest : List Char) :
    parseVal (f + 1) (dumps ascii (.jbool b) ++ rest) = some (.jbool b, rest) := by
  cases b
  · show parseVal (f + 1) ('f' :: 'a' :: 'l' :: 's' :: 'e' :: rest) = some (.jbool false, rest)
    rw [parseVal.eq_def]
    simp only [skipWs_cons_false (by decide : isWsChar 'f' = false)]
    simp [List.take, List.drop]
  · show parseVal (f + 1) ('t' :: 'r' :: 'u' :: 'e' :: rest) = some (.jbool true, rest)
    rw [parseVal.eq_def]
    simp only [skipWs_cons_false (by decide : isWsChar 't' = false)]
    simp [List.take, List.drop]

theorem parseVal_jstr (ascii : Bool) (f : Nat) (s : String) (rest : List Char) :
    parseVal (f + 1) (dumps ascii (.jstr s) ++ rest) = some (.jstr s, rest) := by
  show parseVal (f + 1) ('"' :: (escChars ascii s.data ++ ['"']) ++ rest) = some (.jstr s, rest)
  rw [parseVal.eq_def]
  simp only [List.cons_append, List.append_assoc, List.singleton_append,
    skipWs_cons_false (by decide : isWsChar '"' = false)]
  simp only [if_neg (by decide : ¬('"' : Char) = 'n'), if_neg (by decide : ¬('"' : Char) = 't'),
    if_neg (by decide : ¬('"' : Char) = 'f'), eq_self_iff_true, if_true, List.nil_append]
  rw [parseStr_escChars_len ascii s.data rest]
  rfl

theorem parseVal_jint (ascii : Bool) (f : Nat) (n : Int) (rest : List Char) (hr : RestOk rest) :
    parseVal (f + 1) (dumps ascii (.jint n) ++ rest) = some (.jint n, rest) := by
  show parseVal (f + 1) ((intStr n).data ++ rest) = some (.jint n, rest)
  by_cases hneg : n < 0
  · have : intStr n = "-" ++ natStr n.natAbs := by simp [intStr, hneg]
    rw [this]
    have hdata : ("-" ++ natStr n.natAbs).data = '-' :: (natStr n.natAbs).data := rfl
    rw [hdata]
    rw [parseVal.eq_def]
    simp only [List.cons_append, skipWs_cons_false (by decide : isWsChar '-' = false)]
    simp only [if_neg (by decide : ¬('-' : Char) = 'n'), if_neg (by decide : ¬('-' : Char) = 't'),
      if_neg (by decide : ¬('-' : Char) = 'f'), if_neg (by decide : ¬('-' : Char) = '"'),
      if_neg (by decide : ¬('-' : Char) = '['), if_neg (by decide : ¬('-' : Char) = '{'),
      if_pos rfl]
    rw [parseNat_natStr hr]
    simp only [Option.map_some']
    have : -(n.natAbs : Int) = n := by omega
    rw [this]
    simp
  · have : intStr n = natStr n.natAbs := by simp [intStr, hneg]
    rw [this]
    obtain ⟨c, t, hct⟩ : ∃ c t, (natStr n.natAbs).data = c :: t := by
      cases he : (natStr n.natAbs).data with
      | nil => exact absurd he (natChars_ne_nil (n.natAbs + 1) n.natAbs (by omega))
      | cons c t => exact ⟨c, t, rfl⟩
    have hdig : c.isDigit = true := by
      have := natChars_digits (n.natAbs + 1) n.natAbs (by omega) c
      exact this (by rw [show natChars (n.natAbs + 1) n.natAbs [] = (natStr n.natAbs).data from rfl, hct]; simp)
    obtain ⟨hws, hn, ht, hf, hq, hlb, hlc, hm, _, _, _, _⟩ := isDigit_facts hdig
    rw [hct]
    rw [parseVal.eq_def]
    simp only [List.cons_append, skipWs_cons_false hws]
    simp only [if_neg hn, if_neg ht, if_neg hf, if_neg hq, if_neg hlb, if_neg hlc,
      if_neg hm, if_pos hdig]
    have : c :: (t ++ rest) = (natStr n.natAbs).data ++ rest := by rw [hct]; rfl
    rw [this, parseNat_natStr hr]
    simp only [Option.map_some']
    have : ((n.natAbs : Nat) : Int) = n := by omega
    rw [this]

theorem parseVal_space (fuel : Nat) (cs : List Char) :
    parseVal fuel (' ' :: cs) = parseVal fuel cs := by
  cases fuel with
  | zero => rfl
  | succ f =>
    rw [parseVal.eq_def, parseVal.eq_def]
    simp only []
    rw [skipWs_space]

theorem parseElems_space (fuel : Nat) (cs : List Char) :
    parseElems fuel (' ' :: cs) = parseElems fuel cs := by
  cases fuel with
  | zero => rfl
  | succ f =>
    rw [parseElems.eq_def, parseElems.eq_def]
    simp only []
    rw [parseVal_space]

theorem parseMembers_space (fuel : Nat) (cs : List Char) :
    parseMembers fuel (' ' :: cs) = parseMembers fuel cs := by
  cases fuel with
  | zero => rfl
  | succ f =>
    rw [parseMembers.eq_def, parseMembers.eq_def]
    simp only []
    rw [skipWs_space]

theorem dumps_head (ascii : Bool) (v : JVal) :
    ∃ c t, dumps ascii v = c :: t ∧ isWsChar c = false ∧ c ≠ ']' ∧ c ≠ '}' := by
  cases v with
  | jnull => exact ⟨'n', _, rfl, by decide, by decide, by decide⟩
  | jbool b =>
    cases b
    · exact ⟨'f', _, rfl, by decide, by decide, by decide⟩
    · exact ⟨'t', _, rfl, by decide, by decide, by decide⟩
  | jint n =>
    by_cases hneg : n < 0
    · refine ⟨'-', (natStr n.natAbs).data, ?_, by decide, by decide, by decide⟩
      show (intStr n).data = _
      rw [show intStr n = "-" ++ natStr n.natAbs from by simp [intStr, hneg]]
      rfl
    · obtain ⟨c, t, hct⟩ : ∃ c t, (natStr n.natAbs).data = c :: t := by
        cases he : (natStr n.natAbs).data with
        | nil => exact absurd he (natChars_ne_nil (n.natAbs + 1) n.natAbs (by omega))
        | cons c t => exact ⟨c, t, rfl⟩
      have hdig : c.isDigit = true := by
        have := natChars_digits (n.natAbs + 1) n.natAbs (by omega) c
        exact this (by
          rw [show natChars (n.natAbs + 1) n.natAbs [] = (natStr n.natAbs).data from rfl, hct]
          simp)
      obtain ⟨hws, _, _, _, _, _, _, _, hrb, hrc, _, _⟩ := isDigit_facts hdig
      refine ⟨c, t, ?_, hws, hrb, hrc⟩
      show (intStr n).data = c :: t
      rw [show intStr n = natStr n.natAbs from by simp [intStr, hneg]]
      exact hct
  | jstr s => exact ⟨'"', _, rfl, by decide, by decide, by decide⟩
  | jarr xs => exact ⟨'[', _, rfl, by decide, by decide, by decide⟩
  | jobj kvs => exact ⟨'{', _, rfl, by decide, by decide, by decide⟩

mutual
theorem parse_dumps : ∀ (ascii : Bool) (v : JVal) (f : Nat) (rest : List Char),
    jweight v ≤ f + 1 → wfj v = true → RestOk rest →
    parseVal (f + 1) (dumps ascii v ++ rest) = some (v, rest)
  | ascii, .jnull, f, rest, _, _, _ => parseVal_jnull ascii f rest
  | ascii, .jbool b, f, rest, _, _, _ => parseVal_jbool ascii f b rest
  | ascii, .jint n, f, rest, _, _, hr => parseVal_jint ascii f n rest hr
  | ascii, .jstr s, f, rest, _, _, _ => parseVal_jstr ascii f s rest
  | ascii, .jarr [], f, rest, _, _, _ => by
    show parseVal (f + 1) ('[' :: ']' :: rest) = some (.jarr [], rest)
    rw [parseVal.eq_def]
    simp only [skipWs_cons_false (by decide : isWsChar '[' = false)]
    simp only [if_neg (by decide : ¬('[' : Char) = 'n'), if_neg (by decide : ¬('[' : Char) = 't'),
      if_neg (by decide : ¬('[' : Char) = 'f'), if_neg (by decide : ¬('[' : Char) = '"'),
      eq_self_iff_true, if_true]
    rw [skipWs_cons_false (by decide : isWsChar ']' = false)]
    rfl
  | ascii, .jarr (x :: xs), f, rest, hw, hwf, hr => by
    show parseVal (f + 1) ('[' :: (dumpsElems ascii (x :: xs) ++ rest)) = some (.jarr (x :: xs), rest)
    rw [parseVal.eq_def]
    simp only [skipWs_cons_false (by decide : isWsChar '[' = false)]
    simp only [if_neg (by decide : ¬('[' : Char) = 'n'), if_neg (by decide : ¬('[' : Char) = 't'),
      if_neg (by decide : ¬('[' : Char) = 'f'), if_neg (by decide : ¬('[' : Char) = '"'),
      eq_self_iff_true, if_true]
    obtain ⟨c0, t0, hd, hws0, hnb, _⟩ := dumps_head ascii x
    obtain ⟨q, hq⟩ : ∃ q, dumpsElems ascii (x :: xs) ++ rest = c0 :: q := by
      cases xs with
      | nil => exact ⟨t0 ++ [']'] ++ rest, by simp [dumpsElems, hd]⟩
      | cons y xs' =>
        exact ⟨t0 ++ ',' :: ' ' :: dumpsElems ascii (y :: xs') ++ rest, by simp [dumpsElems, hd]⟩
    have helems : parseElems f (dumpsElems ascii (x :: xs) ++ rest) = some (x :: xs, rest) :=
      parse_elems ascii x xs f rest (by simp only [jweight] at hw; omega)
        (by simpa [wfj] using hwf) hr
    rw [hq, skipWs_cons_false hws0]
    show (if c0 = ']' then some (JVal.jarr [], q)
      else Option.map (fun p => (JVal.jarr p.1, p.2)) (parseElems f (c0 :: q))) =
      some (JVal.jarr (x :: xs), rest)
    rw [if_neg hnb, ← hq, helems]
    rfl
  | ascii, .jobj [], f, rest, _, _, _ => by
    show parseVal (f + 1) ('{' :: '}' :: rest) = some (.jobj [], rest)
    rw [parseVal.eq_def]
    simp only [skipWs_cons_false (by decide : isWsChar '{' = false)]
    simp only [if_neg (by decide : ¬('{' : Char) = 'n'), if_neg (by decide : ¬('{' : Char) = 't'),
      if_neg (by decide : ¬('{' : Char) = 'f'), if_neg (by decide : ¬('{' : Char) = '"'),
      if_neg (by decide : ¬('{' : Char) = '['), eq_self_iff_true, if_true]
    rw [skipWs_cons_false (by decide : isWsChar '}' = false)]
    rfl
  | ascii, .jobj (kv :: kvs), f, rest, hw, hwf, hr => by
    show parseVal (f + 1) ('{' :: (dumpsMembers ascii (kv :: kvs) ++ rest)) =
      some (.jobj (kv :: kvs), rest)
    rw [parseVal.eq_def]
    simp only [skipWs_cons_false (by decide : isWsChar '{' = false)]
    simp only [if_neg (by decide : ¬('{' : Char) = 'n'), if_neg (by decide : ¬('{' : Char) = 't'),
      if_neg (by decide : ¬('{' : Char) = 'f'), if_neg (by decide : ¬('{' : Char) = '"'),
      if_neg (by decide : ¬('{' : Char) = '['), eq_self_iff_true, if_true]
    obtain ⟨q, hq⟩ : ∃ q, dumpsMembers ascii (kv :: kvs) ++ rest = '"' :: q := by
      obtain ⟨k, v⟩ := kv
      cases kvs with
      | nil =>
        exact ⟨escChars ascii k.data ++ '"' :: ':' :: ' ' :: (dumps ascii v ++ '}' :: rest),
          by simp [dumpsMembers]⟩
      | cons m kvs' =>
        exact ⟨escChars ascii k.data ++ '"' :: ':' :: ' ' ::
            (dumps ascii v ++ ',' :: ' ' :: (dumpsMembers ascii (m :: kvs') ++ rest)),
          by simp [dumpsMembers]⟩
    have hmembers : parseMembers f (dumpsMembers ascii (kv :: kvs) ++ rest) =
        some (kv :: kvs, rest) :=
      parse_members ascii kv kvs f rest (by simp only [jweight] at hw; omega)
        (by simp only [wfj, Bool.and_eq_true] at hwf; exact hwf.2) hr
    rw [hq, skipWs_cons_false (by decide : isWsChar '"' = false)]
    show (if ('"' : Char) = '}' then some (JVal.jobj [], q)
      else Option.map (fun p => (JVal.jobj p.1, p.2)) (parseMembers f ('"' :: q))) =
      some (JVal.jobj (kv :: kvs), rest)
    rw [if_neg (by decide : ¬('"' : Char) = '}'), ← hq, hmembers]
    rfl
termination_by _ v _ _ _ _ _ => sizeOf v

theorem parse_elems : ∀ (ascii : Bool) (x : JVal) (xs : List JVal) (f : Nat) (rest : List Char),
    jweightList (x :: xs) ≤ f → wfjList (x :: xs) = true → RestOk rest →
    parseElems f (dumpsElems ascii (x :: xs) ++ rest) = some (x :: xs, rest)
  | ascii, x, xs, f, rest, hw, hwf, hr => by
    have hjw : 1 ≤ jweight x := by cases x <;> simp [jweight]
    obtain ⟨f', rfl⟩ : ∃ f', f = f' + 1 := by
      refine ⟨f - 1, ?_⟩
      simp only [jweightList] at hw
      omega
    obtain ⟨hwx, hwxs⟩ : wfj x = true ∧ wfjList xs = true := by
      simpa [wfjList, Bool.and_eq_true] using hwf
    obtain ⟨f'', rfl⟩ : ∃ f'', f' = f'' + 1 := by
      refine ⟨f' - 1, ?_⟩
      simp only [jweightList] at hw
      omega
    have hwx2 : jweight x ≤ f'' + 1 := by
      simp only [jweightList] at hw
      omega
    cases xs with
    | nil =>
      show parseElems (f'' + 1 + 1) ((dumps ascii x ++ [']']) ++ rest) = some ([x], rest)
      rw [List.append_assoc, List.singleton_append]
      rw [parseElems.eq_def]
      simp only []
      rw [parse_dumps ascii x f'' (']' :: rest) hwx2 hwx rfl]
      rfl
    | cons y xs' =>
      show parseElems (f'' + 1 + 1)
        ((dumps ascii x ++ ',' :: ' ' :: dumpsElems ascii (y :: xs')) ++ rest) =
        some (x :: y :: xs', rest)
      rw [List.append_assoc]
      rw [parseElems.eq_def]
      simp only []
      rw [show (',' :: ' ' :: dumpsElems ascii (y :: xs')) ++ rest =
        ',' :: ' ' :: (dumpsElems ascii (y :: xs') ++ rest) from by simp]
      rw [parse_dumps ascii x f'' (',' :: ' ' :: (dumpsElems ascii (y :: xs') ++ rest)) hwx2 hwx rfl]
      show Option.map (fun p => (x :: p.1, p.2))
        (parseElems (f'' + 1) (' ' :: (dumpsElems ascii (y :: xs') ++ rest))) =
        some (x :: y :: xs', rest)
      rw [parseElems_space]
      rw [parse_elems ascii y xs' (f'' + 1) rest
        (by simp only [jweightList] at hw ⊢; omega) hwxs hr]
      rfl
termination_by _ x xs _ _ _ _ _ => sizeOf x + sizeOf xs

theorem parse_members : ∀ (ascii : Bool) (kv : String × JVal) (kvs : List (String × JVal))
    (f : Nat) (rest : List Char),
    jweightMembers (kv :: kvs) ≤ f → wfjMembers (kv :: kvs) = true → RestOk rest →
    parseMembers f (dumpsMembers ascii (kv :: kvs) ++ rest) = some (kv :: kvs, rest)
  | ascii, (k, v), kvs, f, rest, hw, hwf, hr => by
    have hjw : 1 ≤ jweight v := by cases v <;> simp [jweight]
    obtain ⟨f', rfl⟩ : ∃ f', f = f' + 1 := by
      refine ⟨f - 1, ?_⟩
      simp only [jweightMembers] at hw
      omega
    obtain ⟨hv, hkvs⟩ : wfj v = true ∧ wfjMembers kvs = true := by
      simpa [wfjMembers, Bool.and_eq_true] using hwf
    obtain ⟨f'', rfl⟩ : ∃ f'', f' = f'' + 1 := by
      refine ⟨f' - 1, ?_⟩
      simp only [jweightMembers] at hw
      omega
    have hwv2 : jweight v ≤ f'' + 1 := by
      simp only [jweightMembers] at hw
      omega
    cases kvs with
    | nil =>
      show parseMembers (f'' + 1 + 1)
        (('"' :: (escChars ascii k.data ++ '"' :: ':' :: ' ' :: dumps ascii v) ++ ['}']) ++ rest) =
        some ([(k, v)], rest)
      rw [parseMembers.eq_def]
      simp only []
      rw [show ('"' :: (escChars ascii k.data ++ '"' :: ':' :: ' ' :: dumps ascii v) ++ ['}']) ++
          rest =
        '"' :: (escChars ascii k.data ++ '"' :: (':' :: ' ' :: (dumps ascii v ++ '}' :: rest)))
        from by simp]
      rw [skipWs_cons_false (by decide : isWsChar '"' = false)]
      simp only []
      rw [parseStr_escChars_len ascii k.data (':' :: ' ' :: (dumps ascii v ++ '}' :: rest))]
      simp only []
      rw [skipWs_cons_false (by decide : isWsChar ':' = false)]
      simp only []
      rw [parseVal_space, parse_dumps ascii v f'' ('}' :: rest) hwv2 hv rfl]
      rfl
    | cons m kvs' =>
      show parseMembers (f'' + 1 + 1)
        (('"' :: (escChars ascii k.data ++ '"' :: ':' :: ' ' :: dumps ascii v) ++
          ',' :: ' ' :: dumpsMembers ascii (m :: kvs')) ++ rest) =
        some ((k, v) :: m :: kvs', rest)
      rw [parseMembers.eq_def]
      simp only []
      rw [show ('"' :: (escChars ascii k.data ++ '"' :: ':' :: ' ' :: dumps ascii v) ++
          ',' :: ' ' :: dumpsMembers ascii (m :: kvs')) ++ rest =
        '"' :: (escChars ascii k.data ++ '"' ::
          (':' :: ' ' ::
            (dumps ascii v ++ ',' :: ' ' :: (dumpsMembers ascii (m :: kvs') ++ rest)))) from by
        simp]
      rw [skipWs_cons_false (by decide : isWsChar '"' = false)]
      simp only []
      rw [parseStr_escChars_len ascii k.data
        (':' :: ' ' :: (dumps ascii v ++ ',' :: ' ' :: (dumpsMembers ascii (m :: kvs') ++ rest)))]
      simp only []
      rw [skipWs_cons_false (by decide : isWsChar ':' = false)]
      simp only []
      rw [parseVal_space,
        parse_dumps ascii v f'' (',' :: ' ' :: (dumpsMembers ascii (m :: kvs') ++ rest)) hwv2 hv rfl]
      simp only []
      rw [skipWs_cons_false (by decide : isWsChar ',' = false)]
      simp only []
      rw [parseMembers_space]
      rw [parse_members ascii m kvs' (f'' + 1) rest
        (by simp only [jweightMembers] at hw ⊢; omega) hkvs hr]
      rfl
termination_by _ kv kvs _ _ _ _ _ => sizeOf kv + sizeOf kvs
end

mutual
theorem jweight_le : ∀ (ascii : Bool) (v : JVal), jweight v ≤ (dumps ascii v).length
  | _, .jnull => by simp [jweight, dumps]
  | _, .jbool b => by cases b <;> simp [jweight, dumps]
  | _, .jint n => by
    have : (intStr n).data ≠ [] := by
      by_cases hneg : n < 0
      · rw [show intStr n = "-" ++ natStr n.natAbs from by simp [intStr, hneg]]
        simp [String.data_append]
      · rw [show intStr n = natStr n.natAbs from by simp [intStr, hneg]]
        exact natChars_ne_nil (n.natAbs + 1) n.natAbs (by omega)
    have : 1 ≤ (intStr n).data.length := by
      cases h : (intStr n).data with
      | nil => exact absurd h this
      | cons c t => simp
    simpa [jweight, dumps] using this
  | _, .jstr s => by simp [jweight, dumps]
  | ascii, .jarr xs => by
    have h := jweightList_le ascii xs
    simp only [jweight, dumps, List.length_cons]
    omega
  | ascii, .jobj kvs => by
    have h := jweightMembers_le ascii kvs
    simp only [jweight, dumps, List.length_cons]
    omega

theorem jweightList_le : ∀ (ascii : Bool) (xs : List JVal),
    jweightList xs ≤ (dumpsElems ascii xs).length
  | _, [] => by simp [jweightList, dumpsElems]
  | ascii, [x] => by
    have h := jweight_le ascii x
    have hjx : 1 ≤ jweight x := by cases x <;> simp [jweight]
    simp only [jweightList, jweightList.eq_1, dumpsElems, List.length_append,
      List.length_singleton]
    omega
  | ascii, x :: y :: xs => by
    have h1 := jweight_le ascii x
    have h2 := jweightList_le ascii (y :: xs)
    have hjx : 1 ≤ jweight x := by cases x <;> simp [jweight]
    have hpos : 1 ≤ jweightList (y :: xs) := by
      simp only [jweightList]
      omega
    conv_lhs => rw [jweightList]
    simp only [dumpsElems, List.length_append, List.length_cons]
    omega

theorem jweightMembers_le : ∀ (ascii : Bool) (kvs : List (String × JVal)),
    jweightMembers kvs ≤ (dumpsMembers ascii kvs).length
  | _, [] => by simp [jweightMembers, dumpsMembers]
  | ascii, [(k, v)] => by
    have h := jweight_le ascii v
    have hjv : 1 ≤ jweight v := by cases v <;> simp [jweight]
    simp only [jweightMembers, jweightMembers.eq_1, dumpsMembers, List.length_append,
      List.length_cons, List.length_singleton]
    omega
  | ascii, (k, v) :: m :: kvs => by
    have h1 := jweight_le ascii v
    have h2 := jweightMembers_le ascii (m :: kvs)
    have hjv : 1 ≤ jweight v := by cases v <;> simp [jweight]
    have hpos : 1 ≤ jweightMembers (m :: kvs) := by
      obtain ⟨mk, mv⟩ := m
      simp only [jweightMembers]
      omega
    conv_lhs => rw [jweightMembers]
    simp only [dumpsMembers, List.length_append, List.length_cons]
    omega
end

/-- `json.loads (json.dumps v)` recovers `v` for well-formed values,
with either `ensure_ascii` setting. -/
theorem loads_dumps (ascii : Bool) (v : JVal) (hwf : wfj v = true) :
    loads (dumps ascii v) = some v := by
  unfold loads
  have hfuel : jweight v ≤ (dumps ascii v).length + 1 := Nat.le_succ_of_le (jweight_le ascii v)
  have hparse : parseVal ((dumps ascii v).length + 1) (dumps ascii v ++ []) = some (v, []) :=
    parse_dumps ascii v (dumps ascii v).length [] hfuel hwf trivial
  rw [List.append_nil] at hparse
  rw [hparse]
  rfl

theorem chat_roundtrip (ascii : Bool) (v : JVal) (hwf : wfj v = true) :
    chatDecode (b64encode (utf8Encode (dumps ascii v))) = some v := by
  unfold chatDecode
  rw [b64_roundtrip (utf8Encode (dumps ascii v)) (utf8Encode_lt (dumps ascii v))]
  show (match utf8Decode (utf8Encode (dumps ascii v)) with
    | some cs => loads cs
    | none => none) = some v
  rw [utf8_roundtrip (dumps ascii v)]
  show loads (dumps ascii v) = some v
  exact loads_dumps ascii v hwf

/-- C8: both wire codecs — `BroadcastPeer._encode`/`_decode` with
`json.dumps`'s default `ensure_ascii=True`, and
`RelayPeer._encode`/`_decode` with `ensure_ascii=False` — round-trip
every envelope map whose keys are distinct (a Python dict cannot repeat
a key): arbitrary strings, including control and non-ASCII characters,
booleans, integers, nulls and nested arrays/objects (IEEE-754 float
values lie outside this embedding, and no program envelope carries
one); and decoding fails soft, returning `none` rather than raising, on
malformed Base64, bytes that are not UTF-8, and unparsable JSON. -/
theorem claim_C8_codec_roundtrip :
    (∀ kvs : List (String × JVal), wfj (.jobj kvs) = true →
      chatDecode (chatEncode (.jobj kvs)) = some (.jobj kvs) ∧
      chatDecode (relayEncode (.jobj kvs)) = some (.jobj kvs)) ∧
    (∀ v : JVal, wfj v = true →
      chatDecode (chatEncode v) = some v ∧ chatDecode (relayEncode v) = some v) ∧
    chatDecode [255] = none ∧
    chatDecode [61, 61, 61, 61] = none ∧
    chatDecode (b64encode [255, 255, 255]) = none ∧
    chatDecode (b64encode (utf8Encode ('h' :: 'i' :: []))) = none :=
  ⟨fun _ h => ⟨chat_roundtrip true _ h, chat_roundtrip false _ h⟩,
    fun _ h => ⟨chat_roundtrip true _ h, chat_roundtrip false _ h⟩, rfl, rfl, rfl, rfl⟩

/-- C8 witness: a concrete chat envelope whose text holds a newline, a
tab and a non-ASCII character survives the encode/decode round-trip of
both codecs. -/
theorem claim_C8_witness :
    chatDecode (chatEncode (.jobj [("type", .jstr "chat"),
      ("text", .jstr ("hi\nthere\t" ++ String.mk [Char.ofNat 233])),
      ("id", .jstr "p1"), ("name", .jstr "bob"), ("room", .jstr "public"),
      ("code", .jstr "")])) =
      some (.jobj [("type", .jstr "chat"),
        ("text", .jstr ("hi\nthere\t" ++ String.mk [Char.ofNat 233])),
        ("id", .jstr "p1"), ("name", .jstr "bob"), ("room", .jstr "public"),
        ("code", .jstr "")]) ∧
    chatDecode (relayEncode (.jobj [("type", .jstr "chat"),
      ("text", .jstr ("hi\nthere\t" ++ String.mk [Char.ofNat 233])),
      ("id", .jstr "p1"), ("name", .jstr "bob"), ("room", .jstr "public"),
      ("code", .jstr "")])) =
      some (.jobj [("type", .jstr "chat"),
        ("text", .jstr ("hi\nthere\t" ++ String.mk [Char.ofNat 233])),
        ("id", .jstr "p1"), ("name", .jstr "bob"), ("room", .jstr "public"),
        ("code", .jstr "")]) :=
  claim_C8_codec_roundtrip.1
    [("type", .jstr "chat"), ("text", .jstr ("hi\nthere\t" ++ String.mk [Char.ofNat 233])),
      ("id", .jstr "p1"), ("name", .jstr "bob"), ("room", .jstr "public"),
      ("code", .jstr "")]
    (by simp [wfj, wfjMembers, keysUniq])
